import Mathlib

/-!
Shallow embedding of the core data-format code of this repository:

* `tools/structgen/compile.py` — NBT tag codec (`_write_payload` / `_read_payload`),
  block-state grammar (`parse_block_state` / `canonical_state`), geometric transform
  engine (`transform_dir`, `transform_orientation`, `transform_axis`,
  `transform_state`, `rotate_pos`, `mirror_pos`, `rotate_size`) and the plan shape
  validator (`validate_plan_shape`).
* `infra/world_tools.py` — palette storage (`Section.palette_index`,
  `Section.block_name`), region container (`RegionFile`) and the world reader
  dispatch (`WorldReader.block_name`, `Chunk.block_name`).

Python strings are modelled as `List Char` (`Str`); byte strings as `List Nat`
(`Bytes`, one Nat per byte).  Python integers are unbounded, so `Int`/`Nat` model
them directly; the struct-packing bounds of the codec are made explicit where the
source would raise.  Machine words never overflow silently anywhere in the source:
every 64-bit mask is written out in the Python (`v & 0xFFFFFFFFFFFFFFFF`).
-/

set_option maxRecDepth 100000

namespace MC

/-! ## Block-state grammar (`compile.py`: `parse_block_state`, `canonical_state`)

`STATE_RE = ^(?P<name>[a-z0-9 _ . slash dash]+:[a-z0-9 _ . slash dash]+)(?:\[(?P<props>.*)\])?$`.
The name classes contain neither `:` nor `[`, so the regex match is equivalent to
the deterministic longest-prefix scan below; `.` does not match a newline, and
`$` only ever fires at the true end because the input was stripped first. -/

abbrev Str := List Char

/-- Python `str.strip()` whitespace (the ASCII cases). -/
def pyIsSpace (c : Char) : Bool :=
  c == ' ' || c == '\t' || c == '\n' || c == '\r' || c == Char.ofNat 11 || c == Char.ofNat 12

/-- Python `str.strip()`. -/
def pyStrip (s : Str) : Str :=
  ((s.dropWhile pyIsSpace).reverse.dropWhile pyIsSpace).reverse

/-- The character class `[a-z0-9 _ . slash dash]` of `STATE_RE`. -/
def isNameChar (c : Char) : Bool :=
  ('a' ≤ c && c ≤ 'z') || ('0' ≤ c && c ≤ '9') || c == '_' || c == '.' || c == '/' || c == '-'

/-- Python `s.split(sep, 1)`, as `none` when `sep` does not occur (the source
checks `"=" not in segment` before splitting). -/
def splitFirst (sep : Char) : Str → Option (Str × Str)
  | [] => none
  | c :: rest =>
    if c = sep then some ([], rest)
    else (splitFirst sep rest).map (fun p => (c :: p.1, p.2))

/-- Python `s.split(sep)` (always at least one piece). -/
def splitOnChar (sep : Char) : Str → List Str
  | [] => [[]]
  | c :: rest =>
    if c = sep then [] :: splitOnChar sep rest
    else
      match splitOnChar sep rest with
      | [] => [[c]]
      | p :: ps => (c :: p) :: ps

/-- The property-segment loop of `parse_block_state`: strip each comma-separated
segment, skip empty ones, split at the first `=`, strip key and value, reject
empty keys/values and duplicate keys.  The accumulator keeps insertion order,
like the Python dict. -/
def parsePropSegs : List Str → List (Str × Str) → Option (List (Str × Str))
  | [], acc => some acc
  | seg :: rest, acc =>
    let s := pyStrip seg
    if s.isEmpty then parsePropSegs rest acc
    else
      match splitFirst '=' s with
      | none => none
      | some (k0, v0) =>
        let k := pyStrip k0
        let v := pyStrip v0
        if k.isEmpty || v.isEmpty then none
        else if acc.any (fun kv => kv.1 == k) then none
        else parsePropSegs rest (acc ++ [(k, v)])

/-- `parse_block_state(state)`; `none` models the raised `StructgenError`. -/
def parseBlockState (s : Str) : Option (Str × List (Str × Str)) :=
  let t := pyStrip s
  let n1 := t.takeWhile isNameChar
  if n1.isEmpty then none
  else
    match t.drop n1.length with
    | [] => none
    | c :: r2 =>
      if c = ':' then
        let n2 := r2.takeWhile isNameChar
        if n2.isEmpty then none
        else
          let name := n1 ++ ':' :: n2
          match r2.drop n2.length with
          | [] => some (name, [])
          | c2 :: rr =>
            if c2 = '[' then
              match rr.getLast? with
              | none => none
              | some c3 =>
                if c3 = ']' then
                  let mid := rr.dropLast
                  if mid.contains '\n' then none
                  else (parsePropSegs (splitOnChar ',' mid) []).map (fun ps => (name, ps))
                else none
            else none
      else none

/-- Python `<` on strings: lexicographic comparison of code points. -/
def strLtB : Str → Str → Bool
  | [], [] => false
  | [], _ :: _ => true
  | _ :: _, [] => false
  | a :: as, b :: bs => if a < b then true else if b < a then false else strLtB as bs

def strLeB (a b : Str) : Bool := !(strLtB b a)

/-- Stable insertion used to model Python `sorted` on the property keys (the
keys are distinct, so any stable sort agrees with `sorted`). -/
def insortPair (kv : Str × Str) : List (Str × Str) → List (Str × Str)
  | [] => [kv]
  | p :: ps => if strLeB kv.1 p.1 then kv :: p :: ps else p :: insortPair kv ps

def sortProps : List (Str × Str) → List (Str × Str)
  | [] => []
  | kv :: ps => insortPair kv (sortProps ps)

def joinStrs (sep : Str) : List Str → Str
  | [] => []
  | [x] => x
  | x :: y :: xs => x ++ sep ++ joinStrs sep (y :: xs)

/-- `canonical_state(name, props)`: no bracket clause for an empty property map,
otherwise the properties joined in sorted key order.  A Python dict has distinct
keys, so iterating `sorted(props)` and looking each key up coincides with
sorting the (key, value) pairs by key. -/
def canonicalState (name : Str) (props : List (Str × Str)) : Str :=
  if props.isEmpty then name
  else name ++ '[' :: joinStrs [','] ((sortProps props).map (fun kv => kv.1 ++ '=' :: kv.2)) ++ [']']

/-! ### Shape invariants of `parse_block_state` outputs

These predicates are not source functions; they name the properties the parser
guarantees for its results, used to state and prove the grammar theorems. -/

/-- The first and last characters (when present) are not strip-whitespace. -/
def noEdgeSpace (s : Str) : Prop :=
  (∀ c, s.head? = some c → pyIsSpace c = false) ∧
  (∀ c, s.getLast? = some c → pyIsSpace c = false)

/-- A property key as produced by the parser: non-empty, stripped, free of the
separator characters, and free of `=`. -/
def WfKey (k : Str) : Prop :=
  k ≠ [] ∧ noEdgeSpace k ∧ ',' ∉ k ∧ '\n' ∉ k ∧ '=' ∉ k

/-- A property value as produced by the parser (it may contain `=`). -/
def WfVal (v : Str) : Prop :=
  v ≠ [] ∧ noEdgeSpace v ∧ ',' ∉ v ∧ '\n' ∉ v

/-- A property map as produced by the parser: well-formed pairs, distinct keys. -/
def WfProps (ps : List (Str × Str)) : Prop :=
  (∀ kv ∈ ps, WfKey kv.1 ∧ WfVal kv.2) ∧ (ps.map Prod.fst).Nodup

/-- A block-state name as produced by the parser: two non-empty name-character
runs joined by a single colon. -/
def WfName (n : Str) : Prop :=
  ∃ n1 n2, n = n1 ++ ':' :: n2 ∧ n1 ≠ [] ∧ n2 ≠ [] ∧
    (∀ c ∈ n1, isNameChar c = true) ∧ (∀ c ∈ n2, isNameChar c = true)

/-! ## Geometric transform engine (`compile.py`) -/

def HORIZONTAL : List Str := ["north".toList, "east".toList, "south".toList, "west".toList]

/-- Python `if d in lst: idx = lst.index(d)` combined: the index of the first
occurrence, or `none`. -/
def listIdxOf? (d : Str) : List Str → Option Nat
  | [] => none
  | h :: t => if h == d then some 0 else (listIdxOf? d t).map (· + 1)

/-- `transform_dir(dir_name, rot, mirror)`. -/
def transformDir (d : Str) (rot : Nat) (mirror : Str) : Str :=
  let d1 :=
    match listIdxOf? d HORIZONTAL with
    | some i => HORIZONTAL.getD ((i + rot / 90) % 4) d
    | none => d
  if mirror == "left_right".toList then
    if d1 == "north".toList then "south".toList
    else if d1 == "south".toList then "north".toList
    else d1
  else if mirror == "front_back".toList then
    if d1 == "east".toList then "west".toList
    else if d1 == "west".toList then "east".toList
    else d1
  else d1

/-- `transform_orientation(orientation, rot, mirror)` (split at the first `_`,
transform each component that is a horizontal direction). -/
def transformOrientation (o : Str) (rot : Nat) (mirror : Str) : Str :=
  match splitFirst '_' o with
  | none => o
  | some (a, b) =>
    let a' := if HORIZONTAL.any (· == a) then transformDir a rot mirror else a
    let b' := if HORIZONTAL.any (· == b) then transformDir b rot mirror else b
    a' ++ '_' :: b'

/-- `transform_axis(axis, rot)`. -/
def transformAxis (axis : Str) (rot : Nat) : Str :=
  if !(axis == "x".toList || axis == "y".toList || axis == "z".toList) then axis
  else if axis == "y".toList then axis
  else if rot == 90 || rot == 270 then
    if axis == "x".toList then "z".toList else "x".toList
  else axis

/-- The per-property update of `transform_state`.  The source copies the dict
and overwrites the `facing`/`horizontal_facing`/`orientation`/`axis` entries in
place; with distinct keys that is a pointwise map over the pairs. -/
def transformPropPair (rot : Nat) (mirror : Str) (kv : Str × Str) : Str × Str :=
  if kv.1 == "facing".toList || kv.1 == "horizontal_facing".toList then
    (kv.1, transformDir kv.2 rot mirror)
  else if kv.1 == "orientation".toList then (kv.1, transformOrientation kv.2 rot mirror)
  else if kv.1 == "axis".toList then (kv.1, transformAxis kv.2 rot)
  else kv

/-- `transform_state(state, rot, mirror)`; `none` models a parse failure. -/
def transformState (s : Str) (rot : Nat) (mirror : Str) : Option Str :=
  (parseBlockState s).map fun r => canonicalState r.1 (r.2.map (transformPropPair rot mirror))

/-- `rotate_size(size, rot)`. -/
def rotateSize (size : Int × Int × Int) (rot : Nat) : Int × Int × Int :=
  if rot == 90 || rot == 270 then (size.2.2, size.2.1, size.1) else size

/-- `rotate_pos(x, y, z, size, rot)`; `none` models the unsupported-rotation error. -/
def rotatePos (x y z : Int) (size : Int × Int × Int) (rot : Nat) : Option (Int × Int × Int) :=
  if rot == 0 then some (x, y, z)
  else if rot == 90 then some (z, y, size.1 - 1 - x)
  else if rot == 180 then some (size.1 - 1 - x, y, size.2.2 - 1 - z)
  else if rot == 270 then some (size.2.2 - 1 - z, y, x)
  else none

/-- `mirror_pos(x, y, z, size, mirror)`; `none` models the unsupported-mirror error. -/
def mirrorPos (x y z : Int) (size : Int × Int × Int) (mirror : Str) : Option (Int × Int × Int) :=
  if mirror == "none".toList then some (x, y, z)
  else if mirror == "left_right".toList then some (x, y, size.2.2 - 1 - z)
  else if mirror == "front_back".toList then some (size.1 - 1 - x, y, z)
  else none

/-- One 90-degree rotation step on a (position, box size) pair, threading the
rotated size through as the claimed law prescribes. -/
def rotStep (ps : (Int × Int × Int) × (Int × Int × Int)) :
    Option ((Int × Int × Int) × (Int × Int × Int)) :=
  (rotatePos ps.1.1 ps.1.2.1 ps.1.2.2 ps.2 90).map (fun p => (p, rotateSize ps.2 90))

/-- One mirror step on a (position, box size) pair (mirroring leaves the box
size unchanged). -/
def mirStep (mirror : Str) (ps : (Int × Int × Int) × (Int × Int × Int)) :
    Option ((Int × Int × Int) × (Int × Int × Int)) :=
  (mirrorPos ps.1.1 ps.1.2.1 ps.1.2.2 ps.2 mirror).map (fun p => (p, ps.2))

/-! ## Palette storage and chunk lookups (`infra/world_tools.py`) -/

abbrev Bytes := List Nat

/-- Python `int.bit_length()` (for non-negative ints): the number of binary
digits.  Written with a fuel argument (`n` halves at least `bitLength n` times
before reaching 0, so `n` itself is enough fuel) so that it reduces
structurally. -/
def bitLengthAux : Nat → Nat → Nat
  | 0, _ => 0
  | fuel + 1, n => if n = 0 then 0 else bitLengthAux fuel (n / 2) + 1

def bitLength (n : Nat) : Nat := bitLengthAux n n

/-- `world_tools.Section` (name changed: `section` is a Lean keyword).  The
`data` words are the 64-bit-masked longs of the `block_states.data` long array. -/
structure WSection where
  y : Int
  palette : List String
  data : Option (List Nat)
  blockLight : Option Bytes
  skyLight : Option Bytes

/-- `Section.bits`: `0` when the palette has at most one entry, else
`max(4, (n - 1).bit_length())`. -/
def WSection.bits (s : WSection) : Nat :=
  let n := s.palette.length
  if n ≤ 1 then 0 else max 4 (bitLength (n - 1))

/-- `Section.palette_index(idx)`.  `idx` is the section-local cell index, a
natural number, so the source's `li < 0` guard is vacuous here; the remaining
guards are kept verbatim. -/
def WSection.paletteIndex (s : WSection) (idx : Nat) : Nat :=
  match s.data with
  | none => 0
  | some data =>
    let bits := s.bits
    if bits = 0 then 0
    else
      let vpl := 64 / bits
      if vpl = 0 then 0
      else if data.length ≤ idx / vpl then 0
      else
        let off := (idx % vpl) * bits
        (data.getD (idx / vpl) 0 >>> off) &&& ((1 <<< bits) - 1)

/-- `Section.block_name(lx, ly, lz)`.  The callers guard `0 ≤ l· ≤ 15`, so the
local coordinates are naturals; the `getD` is guarded by the same range test the
source performs before indexing the palette. -/
def WSection.blockName (s : WSection) (lx ly lz : Nat) : String :=
  let idx := (ly <<< 8) ||| (lz <<< 4) ||| lx
  let pi := s.paletteIndex idx
  if s.palette.length ≤ pi then "minecraft:air" else s.palette.getD pi "minecraft:air"

/-- `world_tools.Chunk` (the dict of sections keyed by section y). -/
structure Chunk where
  cx : Int
  cz : Int
  isLightOn : Bool
  sections : List (Int × WSection)
  heightmaps : List (String × List Nat)

/-- `Chunk.block_name(x, y, z)`.  Python `y >> 4` on a possibly negative int is
flooring division by 16, and `sy << 4` is `sy * 16`. -/
def Chunk.blockName (c : Chunk) (x y z : Int) : String :=
  let sy := Int.fdiv y 16
  match (c.sections.find? (fun p => p.1 == sy)).map Prod.snd with
  | none => "minecraft:air"
  | some sec =>
    let lx := x - c.cx * 16
    let lz := z - c.cz * 16
    let ly := y - sy * 16
    if 0 ≤ lx && lx ≤ 15 && 0 ≤ ly && ly ≤ 15 && 0 ≤ lz && lz ≤ 15 then
      sec.blockName lx.toNat ly.toNat lz.toNat
    else "minecraft:air"

/-! ## Region container (`world_tools.RegionFile`)

The two decompressors (`gzip.decompress`, `zlib.decompress`) are external
library calls, so they are passed in as function parameters of the embedding;
nothing the claims state depends on their behaviour. -/

def SECTOR_BYTES : Nat := 4096
def REGION_HEADER_BYTES : Nat := 8192

structure RegionFile where
  file : Bytes

/-- `self._locations = hdr[:SECTOR_BYTES]`. -/
def RegionFile.locations (rf : RegionFile) : Bytes := rf.file.take SECTOR_BYTES

/-- `RegionFile.__init__`: raises `RuntimeError("short region header: ...")`
when the file holds fewer than two 4096-byte header sectors. -/
def RegionFile.init (file : Bytes) : Except String RegionFile :=
  if file.length < REGION_HEADER_BYTES then .error "short region header" else .ok ⟨file⟩

/-- Big-endian value of a byte string (`struct.unpack` of concatenated bytes). -/
def beNat (bs : Bytes) : Nat := bs.foldl (fun acc b => acc * 256 + b) 0

/-- The 4-byte location-table entry of a chunk slot:
`loc = self._locations[idx * 4 : idx * 4 + 4]` with
`idx = lcx + lcz * 32`, the local coordinates from flooring division by 32. -/
def slotLoc (rf : RegionFile) (cx cz : Int) : Bytes :=
  let rx := Int.fdiv cx 32
  let rz := Int.fdiv cz 32
  let lcx := cx - rx * 32
  let lcz := cz - rz * 32
  let idx := (lcx + lcz * 32).toNat
  (rf.locations.drop (idx * 4)).take 4

/-- `offset = (loc[0] << 16) | (loc[1] << 8) | loc[2]`.  `idx ≤ 1023` always,
so the slice is 4 bytes long whenever `init` accepted the file and the `getD`
defaults are never taken. -/
def slotOffset (rf : RegionFile) (cx cz : Int) : Nat :=
  let loc := slotLoc rf cx cz
  (loc.getD 0 0) <<< 16 ||| (loc.getD 1 0) <<< 8 ||| loc.getD 2 0

/-- The seek-and-decompress tail of `read_chunk_nbt`, for a non-zero sector
offset.  Python `f.read(n)` at EOF silently returns fewer bytes, and
`f.read(length - 1)` with `length == 0` is `f.read(-1)`, i.e. everything to
EOF — both are reproduced; `struct.unpack(">I", ...)` insists on exactly 4
bytes and `f.read(1)[0]` on at least one. -/
def chunkRecord (rf : RegionFile) (offset : Nat)
    (gunzip inflate : Bytes → Except String Bytes) : Except String (Option Bytes) :=
  let pos := offset * SECTOR_BYTES
  let lenBytes := (rf.file.drop pos).take 4
  if lenBytes.length ≠ 4 then .error "struct error: unpack requires 4 bytes"
  else
    let length := beNat lenBytes
    match (rf.file.drop (pos + 4)).take 1 with
    | [] => .error "index error"
    | ctype :: _ =>
      let data :=
        if length = 0 then rf.file.drop (pos + 5)
        else (rf.file.drop (pos + 5)).take (length - 1)
      if ctype = 1 then (gunzip data).map some
      else if ctype = 2 then (inflate data).map some
      else .error "unknown chunk compression type"

/-- `RegionFile.read_chunk_nbt(cx, cz)`: `None` for a zero offset, otherwise
read and decompress the record at `offset * 4096`. -/
def RegionFile.readChunkNbt (rf : RegionFile)
    (gunzip inflate : Bytes → Except String Bytes) (cx cz : Int) :
    Except String (Option Bytes) :=
  if slotOffset rf cx cz = 0 then .ok none
  else chunkRecord rf (slotOffset rf cx cz) gunzip inflate

/-- Opening a region file and reading one chunk, the way every caller uses the
class: `RegionFile(path)` then `read_chunk_nbt`. -/
def readChunkFromFile (file : Bytes) (gunzip inflate : Bytes → Except String Bytes)
    (cx cz : Int) : Except String (Option Bytes) :=
  match RegionFile.init file with
  | .error e => .error e
  | .ok rf => rf.readChunkNbt gunzip inflate cx cz

/-! ## World reader (`world_tools.WorldReader`)

The file system is abstracted as a map from region coordinates to the bytes of
`r.<rx>.<rz>.mca` (or `none` when the file does not exist), and `_parse_chunk`
— a pure function from chunk bytes to a `Chunk` — is passed as a parameter.
The two caches only memoise results and are dropped. -/

structure WorldFS where
  regionFileBytes : Int → Int → Option Bytes

/-- `WorldReader._get_region(rx, rz)` (without the cache). -/
def getRegion (fs : WorldFS) (rx rz : Int) : Except String (Option RegionFile) :=
  match fs.regionFileBytes rx rz with
  | none => .ok none
  | some b => (RegionFile.init b).map some

/-- `WorldReader.get_chunk(cx, cz)` (without the cache). -/
def getChunk (fs : WorldFS) (gunzip inflate : Bytes → Except String Bytes)
    (parseChunk : Bytes → Except String Chunk) (cx cz : Int) :
    Except String (Option Chunk) :=
  match getRegion fs (Int.fdiv cx 32) (Int.fdiv cz 32) with
  | .error e => .error e
  | .ok none => .ok none
  | .ok (some rf) =>
    match rf.readChunkNbt gunzip inflate cx cz with
    | .error e => .error e
    | .ok none => .ok none
    | .ok (some raw) => (parseChunk raw).map some

/-- `WorldReader.block_name(x, y, z)`. -/
def worldBlockName (fs : WorldFS) (gunzip inflate : Bytes → Except String Bytes)
    (parseChunk : Bytes → Except String Chunk) (x y z : Int) : Except String String :=
  match getChunk fs gunzip inflate parseChunk (Int.fdiv x 16) (Int.fdiv z 16) with
  | .error e => .error e
  | .ok none => .ok "minecraft:air"
  | .ok (some c) => .ok (c.blockName x y z)

/-! ## Bit packing (spec-modelled writer for the palette storage) -/

/-- One packed 64-bit word: the values of a group in little-endian base-2 to
the `w` digit positions, value `k` of the group at bit offset `k * w`. -/
def packWord (w : Nat) : List Nat → Nat
  | [] => 0
  | v :: vs => v + packWord w vs <<< w

/-- Modelled from the spec: the repository has no palette-storage writer under
`src/` (it only reads world data), so the packing side of the BitStorage round
trip is taken from the spec's words — values are packed
`values_per_long = floor(64 / w)` to a 64-bit word at bit offsets
`(i mod values_per_long) * w`, never spanning a word boundary, the remaining
high bits left as padding. -/
def packBits (w : Nat) (vals : List Nat) : List Nat :=
  if h : vals = [] then []
  else if h2 : 64 / w = 0 then []
  else packWord w (vals.take (64 / w)) :: packBits w (vals.drop (64 / w))
termination_by vals.length
decreasing_by
  have hv : 0 < vals.length := by
    cases vals with
    | nil => exact absurd rfl h
    | cons a l => simp
  have h64 : 0 < 64 / w := Nat.pos_of_ne_zero h2
  simp only [List.length_drop]
  omega

/-! ## Plan shape validation (`compile.py`: `validate_plan_shape`)

A plan is the `json.loads` of a plan file: objects are key-unique association
lists in insertion order, numbers are ints or floats (the validator only ever
inspects a float's type, never its value, so the float payload is omitted), and
JSON booleans are a separate constructor, exactly as `isinstance(x, bool)`
distinguishes them.  The source raises `StructgenError` at the first violation;
the embedding returns `false` — the claims are about failure versus success,
not about which message is raised, and a conjunction has the same truth value
as a sequence of early-exit checks. -/

inductive JVal where
  | jnull
  | jbool (b : Bool)
  | jint (n : Int)
  | jnum
  | jstr (s : Str)
  | jarr (items : List JVal)
  | jobj (kvs : List (Str × JVal))

/-- Python dict lookup on a JSON object. -/
def jget (kvs : List (Str × JVal)) (k : Str) : Option JVal :=
  (kvs.find? (fun kv => kv.1 == k)).map Prod.snd

def SUPPORTED_BIOMES : List Str :=
  ["plains".toList, "desert".toList, "savanna".toList, "snowy".toList, "taiga".toList]

def PLAN_TYPES : List Str := ["pokecenter".toList, "pokemart".toList]

def VALID_JIGSAW_ORIENTATIONS : List Str :=
  ["down_east".toList, "down_north".toList, "down_south".toList, "down_west".toList,
   "east_up".toList, "north_up".toList, "south_up".toList, "up_east".toList,
   "up_north".toList, "up_south".toList, "up_west".toList, "west_up".toList]

/-- `_check_keys(context, obj, required, optional)`: no missing required key
and no unknown key. -/
def checkKeys (kvs : List (Str × JVal)) (required optional : List Str) : Bool :=
  required.all (fun k => kvs.any (fun kv => kv.1 == k)) &&
  kvs.all (fun kv => required.any (· == kv.1) || optional.any (· == kv.1))

/-- `_as_int_triplet(value, context, positive=...)`: a 3-item list of ints
(bools rejected), each `> 0` when `positive`. -/
def asIntTriplet (v : JVal) (positive : Bool) : Option (Int × Int × Int) :=
  match v with
  | .jarr [.jint x, .jint y, .jint z] =>
    if positive && (x ≤ 0 || y ≤ 0 || z ≤ 0) then none else some (x, y, z)
  | _ => none

/-- `_as_num_triplet(value, context)` succeeds on a 3-item list of ints/floats
(bools rejected); the converted floats are discarded by the validator. -/
def asNumTriplet (v : JVal) : Bool :=
  match v with
  | .jarr [a, b, c] =>
    [a, b, c].all fun x =>
      match x with
      | .jint _ => true
      | .jnum => true
      | _ => false
  | _ => false

/-- `assert_in_bounds(pos, size, context)` as a predicate. -/
def inBounds (p size : Int × Int × Int) : Bool :=
  !(p.1 < 0 || p.2.1 < 0 || p.2.2 < 0 || size.1 ≤ p.1 || size.2.1 ≤ p.2.1 || size.2.2 ≤ p.2.2)

/-- `parse_block_state` followed by `canonical_state` (the validator only cares
that they do not raise; `canonical_state` is total). -/
def stateOk (s : Str) : Bool := (parseBlockState s).isSome

/-- `palette_keys == BIOME_SET` (Python set equality of the key set with the
supported-biome set). -/
def biomeKeySetOk (ks : List Str) : Bool :=
  SUPPORTED_BIOMES.all (fun b => ks.any (· == b)) &&
  ks.all (fun k => SUPPORTED_BIOMES.any (· == k))

def planRequiredKeys : List Str :=
  ["schema_version".toList, "id".toList, "type".toList, "size".toList, "origin".toList,
   "blocks".toList, "jigsaws".toList, "block_entities".toList, "entities".toList,
   "palette_refs".toList, "tags".toList]

/-- The per-entry check of the `palette_refs.<biome>` loop: each material key a
non-empty string, each state a string that parses. -/
def paletteEntryOk (kv : Str × JVal) : Bool :=
  !kv.1.isEmpty &&
  (match kv.2 with
   | .jstr st => stateOk st
   | _ => false)

/-- The body of the `blocks[i]` loop of `validate_plan_shape`. -/
def blockOk (size : Int × Int × Int) (prefs : List (Str × JVal)) (b : JVal) : Bool :=
  match b with
  | .jobj kvs =>
    checkKeys kvs ["pos".toList, "state".toList] ["material_key".toList] &&
    (match jget kvs ("pos".toList) with
     | some pv =>
       match asIntTriplet pv false with
       | some p =>
         (match jget kvs ("state".toList) with
          | some (.jstr st) => stateOk st
          | _ => false) &&
         (match jget kvs ("material_key".toList) with
          | none => true
          | some (.jstr mk) =>
            !mk.isEmpty &&
            SUPPORTED_BIOMES.all (fun biome =>
              match jget prefs biome with
              | some (.jobj pal) => pal.any (fun kv => kv.1 == mk)
              | _ => false)
          | some _ => false) &&
         inBounds p size
       | none => false
     | none => false)
  | _ => false

def jigsawRequiredKeys : List Str :=
  ["pos".toList, "name".toList, "target".toList, "pool".toList, "final_state".toList,
   "joint".toList, "orientation".toList]

/-- A required string field of a jigsaw entry: a string, non-empty once stripped. -/
def strFieldOk (kvs : List (Str × JVal)) (k : Str) : Bool :=
  match jget kvs k with
  | some (.jstr s) => !(pyStrip s).isEmpty
  | _ => false

/-- The body of the `jigsaws[i]` loop of `validate_plan_shape`. -/
def jigsawOk (size : Int × Int × Int) (j : JVal) : Bool :=
  match j with
  | .jobj kvs =>
    checkKeys kvs jigsawRequiredKeys [] &&
    (match jget kvs ("pos".toList) with
     | some pv =>
       match asIntTriplet pv false with
       | some p => inBounds p size
       | none => false
     | none => false) &&
    jigsawRequiredKeys.tail.all (strFieldOk kvs) &&
    (match jget kvs ("joint".toList) with
     | some (.jstr s) => s == "rollable".toList || s == "aligned".toList
     | _ => false) &&
    (match jget kvs ("orientation".toList) with
     | some (.jstr s) => VALID_JIGSAW_ORIENTATIONS.any (· == s)
     | _ => false) &&
    (match jget kvs ("final_state".toList) with
     | some (.jstr s) => stateOk s
     | _ => false)
  | _ => false

/-- The body of the `block_entities[i]` loop of `validate_plan_shape`. -/
def blockEntityOk (size : Int × Int × Int) (be : JVal) : Bool :=
  match be with
  | .jobj kvs =>
    checkKeys kvs ["pos".toList, "template".toList, "params".toList] [] &&
    (match jget kvs ("pos".toList) with
     | some pv =>
       match asIntTriplet pv false with
       | some p => inBounds p size
       | none => false
     | none => false) &&
    strFieldOk kvs ("template".toList) &&
    (match jget kvs ("params".toList) with
     | some (.jobj _) => true
     | _ => false)
  | _ => false

/-- The body of the `entities[i]` loop of `validate_plan_shape`. -/
def entityOk (size : Int × Int × Int) (e : JVal) : Bool :=
  match e with
  | .jobj kvs =>
    checkKeys kvs ["pos".toList, "block_pos".toList, "template".toList, "params".toList] [] &&
    (match jget kvs ("pos".toList) with
     | some pv => asNumTriplet pv
     | none => false) &&
    (match jget kvs ("block_pos".toList) with
     | some pv =>
       match asIntTriplet pv false with
       | some p => inBounds p size
       | none => false
     | none => false) &&
    strFieldOk kvs ("template".toList) &&
    (match jget kvs ("params".toList) with
     | some (.jobj _) => true
     | _ => false)
  | _ => false

/-- `validate_plan_shape(plan_path, plan)`, as a predicate: `true` exactly when
the source returns without raising. -/
def validatePlanShape (plan : JVal) : Bool :=
  match plan with
  | .jobj kvs =>
    checkKeys kvs planRequiredKeys [] &&
    (match jget kvs ("schema_version".toList) with
     | some (.jint v) => v == 1
     | _ => false) &&
    (match jget kvs ("id".toList) with
     | some (.jstr s) => !(pyStrip s).isEmpty
     | _ => false) &&
    (match jget kvs ("type".toList) with
     | some (.jstr s) => PLAN_TYPES.any (· == s)
     | _ => false) &&
    (match jget kvs ("origin".toList) with
     | some v => (asIntTriplet v false).isSome
     | none => false) &&
    (match jget kvs ("tags".toList) with
     | some (.jarr ts) =>
       ts.all fun t =>
         match t with
         | .jstr _ => true
         | _ => false
     | _ => false) &&
    (match jget kvs ("palette_refs".toList) with
     | some (.jobj prefs) =>
       !prefs.isEmpty &&
       biomeKeySetOk (prefs.map Prod.fst) &&
       SUPPORTED_BIOMES.all (fun biome =>
         match jget prefs biome with
         | some (.jobj pal) => pal.all paletteEntryOk
         | _ => false) &&
       (match jget kvs ("size".toList) with
        | some sv =>
          match asIntTriplet sv true with
          | some size =>
            (match jget kvs ("blocks".toList) with
             | some (.jarr bs) => !bs.isEmpty && bs.all (blockOk size prefs)
             | _ => false) &&
            (match jget kvs ("jigsaws".toList) with
             | some (.jarr js) => !js.isEmpty && js.all (jigsawOk size)
             | _ => false) &&
            (match jget kvs ("block_entities".toList) with
             | some (.jarr bes) => bes.all (blockEntityOk size)
             | _ => false) &&
            (match jget kvs ("entities".toList) with
             | some (.jarr es) => es.all (entityOk size)
             | _ => false)
          | none => false
        | none => false)
     | _ => false)
  | _ => false

/-! ## NBT tag codec (`compile.py`: `_tag_type`, `_write_payload`, `_read_payload`)

`PyVal` models the Python values the codec moves: `bool` and `int` are distinct
constructors (Python `isinstance(x, bool)` is checked before `isinstance(x, int)`),
a `float` is carried as its IEEE-754 double bit pattern (`struct.pack(">d")`
writes exactly those 8 bytes), a `str` is carried as its UTF-8 byte encoding
(UTF-8 en/decoding is a bijection, so string equality is byte equality), and
`NbtList` keeps its `inner_tag`.  The mutual `PyList`/`PyKVs` shapes replace
nested `List` so that mutual structural induction is available. -/

mutual
inductive PyVal where
  | pyBool (b : Bool)
  | pyInt (v : Int)
  | pyFloat (bits : Nat)
  | pyStr (utf8 : Bytes)
  | pyBytes (bs : Bytes)
  | nbtList (inner : Nat) (items : PyList)
  | pyList (items : PyList)
  | pyDict (kvs : PyKVs)
  deriving DecidableEq
inductive PyList where
  | nil
  | cons (v : PyVal) (vs : PyList)
  deriving DecidableEq
inductive PyKVs where
  | nil
  | cons (k : Bytes) (v : PyVal) (rest : PyKVs)
  deriving DecidableEq
end

def PyList.length : PyList → Nat
  | .nil => 0
  | .cons _ vs => vs.length + 1

def PyKVs.length : PyKVs → Nat
  | .nil => 0
  | .cons _ _ rest => rest.length + 1

def PyKVs.keyMem : PyKVs → Bytes → Bool
  | .nil, _ => false
  | .cons k0 _ rest, k => k0 == k || rest.keyMem k

def PyKVs.lookup : PyKVs → Bytes → Option PyVal
  | .nil, _ => none
  | .cons k0 v rest, k => if k0 = k then some v else rest.lookup k

/-- Python `d[k] = v`: replace in place if the key exists, else append. -/
def PyKVs.set : PyKVs → Bytes → PyVal → PyKVs
  | .nil, k, v => .cons k v .nil
  | .cons k0 v0 rest, k, v =>
    if k0 = k then .cons k0 v rest else .cons k0 v0 (rest.set k v)

def PyKVs.append : PyKVs → PyKVs → PyKVs
  | .nil, d => d
  | .cons k v rest, d => .cons k v (rest.append d)

/-! `_tag_type(value)`: `none` models the raised `StructgenError` (a
heterogeneous bare list). -/
mutual
def tagType : PyVal → Option Nat
  | .pyBool _ => some 1
  | .pyInt _ => some 3
  | .pyFloat _ => some 6
  | .pyBytes _ => some 7
  | .pyStr _ => some 8
  | .pyDict _ => some 10
  | .nbtList _ _ => some 9
  | .pyList items =>
    match items with
    | .nil => some 9
    | .cons v vs =>
      match tagType v with
      | none => none
      | some inner => if tagsAllEq vs inner then some 9 else none
def tagsAllEq : PyList → Nat → Bool
  | .nil, _ => true
  | .cons v vs, inner =>
    (match tagType v with
     | some t => t == inner
     | none => false) && tagsAllEq vs inner
end

/-- `k` bytes, big-endian, of `n` (the low `8 * k` bits of `n`). -/
def be : Nat → Nat → Bytes
  | 0, _ => []
  | k + 1, n => be k (n / 256) ++ [n % 256]

/-- The unsigned 32-bit pattern `struct.pack(">i", v)` writes for an in-range
`v`. -/
def u32ofInt (v : Int) : Nat := (v % 4294967296).toNat

def i32be (v : Int) : Bytes := be 4 (u32ofInt v)

/-- Two's-complement reading of a `k`-byte big-endian value (`struct.unpack`
with a signed format). -/
def signedOfBe (k : Nat) (n : Nat) : Int :=
  if n < 2 ^ (8 * k - 1) then (n : Int) else (n : Int) - 2 ^ (8 * k)

/-- `_enc_string(s)`: unsigned 16-bit length prefix (`">H"`), at most 65535
bytes. -/
def encString (s : Bytes) : Option Bytes :=
  if 65535 < s.length then none else some (be 2 s.length ++ s)

/-! `_write_payload(value)`, returning the tag byte and the payload bytes;
`none` models a raised error (`struct.error` on an out-of-range int, the
too-long-string error, list heterogeneity, `bytes([inner])` on a bad tag). -/
mutual
def writePayload : PyVal → Option (Nat × Bytes)
  | .pyBool b => some (1, [if b then 1 else 0])
  | .pyInt v =>
    if -2147483648 ≤ v && v < 2147483648 then some (3, i32be v) else none
  | .pyFloat bits => some (6, be 8 bits)
  | .pyStr s =>
    match encString s with
    | some e => some (8, e)
    | none => none
  | .pyBytes bs =>
    if bs.length < 2147483648 then some (7, i32be bs.length ++ bs) else none
  | .pyDict kvs =>
    match writeDictEntries kvs with
    | some p => some (10, p ++ [0])
    | none => none
  | .nbtList inner items =>
    if inner < 256 then
      match writeListItems items inner with
      | some p =>
        if items.length < 2147483648 then some (9, inner :: (i32be items.length ++ p))
        else none
      | none => none
    else none
  | .pyList items =>
    match tagType (.pyList items) with
    | none => none
    | some _ =>
      let inner :=
        match items with
        | .nil => 0
        | .cons v _ => (tagType v).getD 0
      match writeListItems items inner with
      | some p =>
        if items.length < 2147483648 then some (9, inner :: (i32be items.length ++ p))
        else none
      | none => none
def writeListItems : PyList → Nat → Option Bytes
  | .nil, _ => some []
  | .cons v vs, inner =>
    match writePayload v with
    | none => none
    | some (t, p) =>
      if t = inner then (writeListItems vs inner).map (fun r => p ++ r) else none
def writeDictEntries : PyKVs → Option Bytes
  | .nil => some []
  | .cons k v rest =>
    match writePayload v with
    | none => none
    | some (t, p) =>
      match encString k with
      | none => none
      | some ek => (writeDictEntries rest).map (fun r => t :: (ek ++ p ++ r))
end

/-- Widening of an IEEE-754 single bit pattern to the double bit pattern
`struct.unpack(">f")` yields (the decoder's `TAG_FLOAT` branch; the encoder
never writes that tag). -/
def f32ToF64 (n : Nat) : Nat :=
  let sign := n / 2 ^ 31 % 2
  let exp := n / 2 ^ 23 % 2 ^ 8
  let man := n % 2 ^ 23
  if exp = 255 then sign * 2 ^ 63 + 2047 * 2 ^ 52 + man * 2 ^ 29
  else if exp = 0 then
    if man = 0 then sign * 2 ^ 63
    else
      let k := bitLength man
      sign * 2 ^ 63 + (873 + k) * 2 ^ 52 + (man - 2 ^ (k - 1)) * 2 ^ (53 - k)
  else sign * 2 ^ 63 + (exp + 896) * 2 ^ 52 + man * 2 ^ 29

/-- Take exactly `n` bytes from the front of the buffer (`_Buf.read`; `none`
is the unexpected-EOF error). -/
def readN (n : Nat) (b : Bytes) : Option (Bytes × Bytes) :=
  if n ≤ b.length then some (b.take n, b.drop n) else none

/-- Read a `k`-byte big-endian unsigned value. -/
def readNum (k : Nat) (b : Bytes) : Option (Nat × Bytes) :=
  (readN k b).map (fun p => (beNat p.1, p.2))

/-- Read a `k`-byte big-endian signed value. -/
def readSigned (k : Nat) (b : Bytes) : Option (Int × Bytes) :=
  (readN k b).map (fun p => (signedOfBe k (beNat p.1), p.2))

/-- `_Buf.read_string`: signed 16-bit length (negative rejected), then the
bytes (UTF-8 decoding is modelled as the identity on the byte encoding). -/
def readNbtString (b : Bytes) : Option (Bytes × Bytes) :=
  match readSigned 2 b with
  | none => none
  | some (ln, r) => if ln < 0 then none else readN ln.toNat r

/-- `TAG_INT_ARRAY` / `TAG_LONG_ARRAY` element loop: `n` signed `k`-byte values
as a plain Python list of ints. -/
def readInts (k : Nat) : Nat → Bytes → Option (PyList × Bytes)
  | 0, b => some (.nil, b)
  | n + 1, b =>
    match readSigned k b with
    | none => none
    | some (v, r) => (readInts k n r).map (fun p => (.cons (.pyInt v) p.1, p.2))

/-! `_read_payload(buf, tag)`.  The recursion of the source is bounded by the
buffer, which a structurally recursive Lean function cannot see, so a fuel
argument drives the recursion; every theorem below instantiates the fuel with
an explicit sufficient amount. -/
mutual
def readPayload : Nat → Nat → Bytes → Option (PyVal × Bytes)
  | 0, _, _ => none
  | fuel + 1, tag, b =>
    if tag = 1 then (readSigned 1 b).map (fun p => (.pyInt p.1, p.2))
    else if tag = 2 then (readSigned 2 b).map (fun p => (.pyInt p.1, p.2))
    else if tag = 3 then (readSigned 4 b).map (fun p => (.pyInt p.1, p.2))
    else if tag = 4 then (readSigned 8 b).map (fun p => (.pyInt p.1, p.2))
    else if tag = 5 then (readNum 4 b).map (fun p => (.pyFloat (f32ToF64 p.1), p.2))
    else if tag = 6 then (readNum 8 b).map (fun p => (.pyFloat p.1, p.2))
    else if tag = 7 then
      match readSigned 4 b with
      | none => none
      | some (ln, r) =>
        if ln < 0 then none
        else (readN ln.toNat r).map (fun p => (.pyBytes p.1, p.2))
    else if tag = 8 then (readNbtString b).map (fun p => (.pyStr p.1, p.2))
    else if tag = 9 then
      match b with
      | [] => none
      | inner :: r1 =>
        match readSigned 4 r1 with
        | none => none
        | some (ln, r2) =>
          if ln < 0 then none
          else
            match readListPayload fuel inner ln.toNat r2 with
            | none => none
            | some (items, r3) => some (.nbtList inner items, r3)
    else if tag = 10 then readCompound fuel .nil b
    else if tag = 11 then
      match readSigned 4 b with
      | none => none
      | some (ln, r) =>
        if ln < 0 then none
        else (readInts 4 ln.toNat r).map (fun p => (.pyList p.1, p.2))
    else if tag = 12 then
      match readSigned 4 b with
      | none => none
      | some (ln, r) =>
        if ln < 0 then none
        else (readInts 8 ln.toNat r).map (fun p => (.pyList p.1, p.2))
    else none
def readListPayload : Nat → Nat → Nat → Bytes → Option (PyList × Bytes)
  | 0, _, _, _ => none
  | _ + 1, _, 0, b => some (.nil, b)
  | fuel + 1, inner, n + 1, b =>
    match readPayload fuel inner b with
    | none => none
    | some (v, r) =>
      match readListPayload fuel inner n r with
      | none => none
      | some (vs, r2) => some (.cons v vs, r2)
def readCompound : Nat → PyKVs → Bytes → Option (PyVal × Bytes)
  | 0, _, _ => none
  | fuel + 1, acc, b =>
    match b with
    | [] => none
    | t :: r1 =>
      if t = 0 then some (.pyDict acc, r1)
      else
        match readNbtString r1 with
        | none => none
        | some (name, r2) =>
          match readPayload fuel t r2 with
          | none => none
          | some (v, r3) => readCompound fuel (acc.set name v) r3
end

/-! The shape the decoder hands back for an encoder input: Python booleans come
back as the ints `1`/`0` (`_read_payload` unpacks `TAG_BYTE` with `">b"`);
everything else keeps its shape. -/
mutual
def pyCanon : PyVal → PyVal
  | .pyBool b => .pyInt (if b then 1 else 0)
  | .pyInt v => .pyInt v
  | .pyFloat bits => .pyFloat bits
  | .pyStr s => .pyStr s
  | .pyBytes bs => .pyBytes bs
  | .nbtList inner items => .nbtList inner (pyCanonL items)
  | .pyList items => .pyList (pyCanonL items)
  | .pyDict kvs => .pyDict (pyCanonKV kvs)
def pyCanonL : PyList → PyList
  | .nil => .nil
  | .cons v vs => .cons (pyCanon v) (pyCanonL vs)
def pyCanonKV : PyKVs → PyKVs
  | .nil => .nil
  | .cons k v rest => .cons k (pyCanon v) (pyCanonKV rest)
end

/-- The bit pattern is a NaN (exponent all ones, non-zero mantissa). -/
def isNaNBits (p : Nat) : Bool := p / 2 ^ 52 % 2048 = 2047 && p % 2 ^ 52 ≠ 0

/-- Python `==` on two doubles, at the bit-pattern level: NaN equals nothing,
positive and negative zero are equal, and otherwise distinct patterns are
distinct values. -/
def floatEqBits (a b : Nat) : Bool :=
  if isNaNBits a || isNaNBits b then false
  else if a % 2 ^ 63 = 0 && b % 2 ^ 63 = 0 then true
  else a == b

/-- Python `==` between an int and a double with bit pattern `p` (exact value
comparison). -/
def intEqFloatBits (n : Int) (p : Nat) : Bool :=
  if isNaNBits p then false
  else
    let sign : Nat := p / 2 ^ 63
    let exp : Nat := p / 2 ^ 52 % 2048
    let man : Nat := p % 2 ^ 52
    if exp = 2047 then false
    else
      let m : Int := if exp = 0 then (man : Int) else (man : Int) + 2 ^ 52
      let e := if exp = 0 then 1 else exp
      let signed : Int → Int := fun x => if sign = 1 then -x else x
      if 1075 ≤ e then n = signed (m * 2 ^ (e - 1075))
      else if m % (2 : Int) ^ (1075 - e) = 0 then n = signed (m / (2 : Int) ^ (1075 - e))
      else false

/-! Python `==` on the modelled values: numeric cross-type equality between
`bool`, `int` and `float`; `NbtList` (a dataclass) is never equal to a bare
`list`; dicts compare as key-value maps. -/
mutual
def pyEq : PyVal → PyVal → Bool
  | .pyBool a, .pyBool b => a == b
  | .pyBool a, .pyInt n => (if a then (1 : Int) else 0) == n
  | .pyInt n, .pyBool a => n == (if a then (1 : Int) else 0)
  | .pyBool a, .pyFloat p => intEqFloatBits (if a then 1 else 0) p
  | .pyFloat p, .pyBool a => intEqFloatBits (if a then 1 else 0) p
  | .pyInt a, .pyInt b => a == b
  | .pyInt n, .pyFloat p => intEqFloatBits n p
  | .pyFloat p, .pyInt n => intEqFloatBits n p
  | .pyFloat a, .pyFloat b => floatEqBits a b
  | .pyStr a, .pyStr b => a == b
  | .pyBytes a, .pyBytes b => a == b
  | .nbtList i1 l1, .nbtList i2 l2 => i1 == i2 && pyEqL l1 l2
  | .pyList l1, .pyList l2 => pyEqL l1 l2
  | .pyDict d1, .pyDict d2 => d1.length == d2.length && pyEqDictLe d1 d2
  | _, _ => false
def pyEqL : PyList → PyList → Bool
  | .nil, .nil => true
  | .cons a as, .cons b bs => pyEq a b && pyEqL as bs
  | _, _ => false
def pyEqDictLe : PyKVs → PyKVs → Bool
  | .nil, _ => true
  | .cons k v rest, d2 =>
    (match d2.lookup k with
     | some v2 => pyEq v v2
     | none => false) && pyEqDictLe rest d2
end

/-! Invariants every value reaching `_write_payload` from Python satisfies:
dict keys are distinct (Python dicts cannot hold duplicates) and float
patterns are 64-bit. -/
mutual
def pyWF : PyVal → Bool
  | .pyBool _ => true
  | .pyInt _ => true
  | .pyFloat bits => bits < 2 ^ 64
  | .pyStr _ => true
  | .pyBytes _ => true
  | .nbtList _ items => pyWFL items
  | .pyList items => pyWFL items
  | .pyDict kvs => kvsKeysNodup kvs && pyWFKV kvs
def pyWFL : PyList → Bool
  | .nil => true
  | .cons v vs => pyWF v && pyWFL vs
def pyWFKV : PyKVs → Bool
  | .nil => true
  | .cons _ v rest => pyWF v && pyWFKV rest
def kvsKeysNodup : PyKVs → Bool
  | .nil => true
  | .cons k _ rest => !rest.keyMem k && kvsKeysNodup rest
end

/-! The restrictions of the amended round-trip claim: every list node is a
tagged `NbtList` (a bare Python list decodes as an `NbtList`, which Python
`==` rejects), no float is NaN (`nan == nan` is false), and every string and
dict key is shorter than 32768 UTF-8 bytes (the encoder writes an unsigned
16-bit length, the decoder reads it back signed and rejects it as negative). -/
mutual
def pyGood : PyVal → Bool
  | .pyBool _ => true
  | .pyInt _ => true
  | .pyFloat bits => !isNaNBits bits
  | .pyStr s => s.length < 32768
  | .pyBytes _ => true
  | .nbtList _ items => pyGoodL items
  | .pyList _ => false
  | .pyDict kvs => pyGoodKV kvs
def pyGoodL : PyList → Bool
  | .nil => true
  | .cons v vs => pyGood v && pyGoodL vs
def pyGoodKV : PyKVs → Bool
  | .nil => true
  | .cons k v rest => k.length < 32768 && pyGood v && pyGoodKV rest
end

/-! Sufficient decoder fuel for a value's encoding. -/
mutual
def decodeFuel : PyVal → Nat
  | .pyBool _ => 1
  | .pyInt _ => 1
  | .pyFloat _ => 1
  | .pyStr _ => 1
  | .pyBytes _ => 1
  | .nbtList _ items => decodeFuelL items + 1
  | .pyList items => decodeFuelL items + 1
  | .pyDict kvs => decodeFuelKV kvs + 1
def decodeFuelL : PyList → Nat
  | .nil => 1
  | .cons v vs => max (decodeFuel v) (decodeFuelL vs) + 1
def decodeFuelKV : PyKVs → Nat
  | .nil => 1
  | .cons _ v rest => max (decodeFuel v) (decodeFuelKV rest) + 1
end

/-! ## Concrete inputs used by witnesses and counterexamples -/

/-- A section whose 2-entry palette is indexed by a corrupted storage word: the
first cell decodes to palette index 15. -/
def c2sec : WSection := ⟨0, ["minecraft:stone", "minecraft:dirt"], some [15], none, none⟩

/-- The identity stand-in for a decompressor parameter. -/
def okId : Bytes → Except String Bytes := fun b => .ok b

/-- Region-file header (8192 bytes): slot (0,0) at sector offset 2, one sector. -/
def c3Header : Bytes := [0, 0, 2, 1] ++ List.replicate 8188 0

/-- A region file whose only chunk is stored with compression scheme byte 3
(uncompressed): declared length 2, scheme 3, one payload byte. -/
def c3File : Bytes := c3Header ++ [0, 0, 0, 2, 3, 0]

/-- Region-file header: slot (0,0) absent (offset 0), slot (1,0) at offset 2. -/
def c4Header : Bytes := [0, 0, 0, 0, 0, 0, 2, 1] ++ List.replicate 8184 0

/-- A region file with a mix of present and absent slots: slot (0,0) has
offset 0, slot (1,0) holds a zlib-scheme chunk. -/
def c4File : Bytes := c4Header ++ [0, 0, 0, 2, 2, 7]

/-- A one-section, palette-only chunk at chunk coordinates (0, 0). -/
def c10sec : WSection := ⟨0, ["minecraft:stone"], none, none, none⟩

def c10chunk : Chunk := ⟨0, 0, false, [(0, c10sec)], []⟩

/-- A chunk with no sections at all, at chunk coordinates (1, 0). -/
def c10noSec : Chunk := ⟨1, 0, false, [], []⟩

/-- A world with no region files at all. -/
def emptyFS : WorldFS := ⟨fun _ _ => none⟩

/-- A world whose only region file is `c4File` (at region coordinates (0,0)). -/
def c4FS : WorldFS := ⟨fun rx rz => if rx = 0 && rz = 0 then some c4File else none⟩

/-- A chunk-parse stand-in returning a fixed chunk. -/
def constParse (c : Chunk) : Bytes → Except String Chunk := fun _ => .ok c

/-- A one-entry biome palette mapping material key "k" to a parseable state. -/
def c9pal : List (Str × JVal) := [("k".toList, .jstr "m:s".toList)]

/-- `palette_refs` covering exactly the five supported biomes. -/
def c9prefs : List (Str × JVal) :=
  [("plains".toList, .jobj c9pal), ("desert".toList, .jobj c9pal),
   ("savanna".toList, .jobj c9pal), ("snowy".toList, .jobj c9pal),
   ("taiga".toList, .jobj c9pal)]

/-- A block entry referencing material key "k". -/
def c9bkvs : List (Str × JVal) :=
  [("pos".toList, .jarr [.jint 0, .jint 0, .jint 0]),
   ("state".toList, .jstr "m:s".toList),
   ("material_key".toList, .jstr "k".toList)]

/-- A minimal well-formed jigsaw entry. -/
def c9jig : JVal := .jobj
  [("pos".toList, .jarr [.jint 0, .jint 0, .jint 0]),
   ("name".toList, .jstr "a".toList),
   ("target".toList, .jstr "b".toList),
   ("pool".toList, .jstr "c".toList),
   ("final_state".toList, .jstr "m:s".toList),
   ("joint".toList, .jstr "rollable".toList),
   ("orientation".toList, .jstr "north_up".toList)]

/-- A minimal plan object that passes `validate_plan_shape`. -/
def c9plan : List (Str × JVal) :=
  [("schema_version".toList, .jint 1),
   ("id".toList, .jstr "p".toList),
   ("type".toList, .jstr "pokecenter".toList),
   ("size".toList, .jarr [.jint 1, .jint 1, .jint 1]),
   ("origin".toList, .jarr [.jint 0, .jint 0, .jint 0]),
   ("blocks".toList, .jarr [.jobj c9bkvs]),
   ("jigsaws".toList, .jarr [c9jig]),
   ("block_entities".toList, .jarr []),
   ("entities".toList, .jarr []),
   ("palette_refs".toList, .jobj c9prefs),
   ("tags".toList, .jarr [])]

/-! # Theorems -/

/-! ## C2 — palette-storage corruption fallback -/

/-- C2 (counterexample): the claim says an out-of-range computed palette index
resolves to the category label at index 0 of the palette; on `c2sec` the
computed index is 15, out of range for the 2-entry palette, and `block_name`
returns the fixed string "minecraft:air", not the label at index 0
("minecraft:stone"). -/
theorem c2_counterexample :
    2 ≤ c2sec.paletteIndex 0 ∧
    c2sec.palette.length = 2 ∧
    c2sec.blockName 0 0 0 = "minecraft:air" ∧
    c2sec.palette.getD 0 "" = "minecraft:stone" ∧
    c2sec.blockName 0 0 0 ≠ c2sec.palette.getD 0 "" := by
  refine ⟨by decide, by decide, by decide, by decide, by decide⟩

/-- C2 (amended): for every section-local cell whose computed palette index is
out of range for the section's palette, `block_name` resolves to the fixed
fallback string "minecraft:air" (it never raises; the fallback coincides with
the label at index 0 only when that label is itself "minecraft:air"). -/
theorem c2_palette_fallback (sec : WSection) (lx ly lz : Nat)
    (hpi : sec.palette.length ≤ sec.paletteIndex ((ly <<< 8) ||| (lz <<< 4) ||| lx)) :
    sec.blockName lx ly lz = "minecraft:air" := by
  unfold WSection.blockName
  simp only [if_pos hpi]

/-- C2 (witness): the amended theorem applied to the concrete corrupted
section. -/
theorem c2_witness :
    c2sec.palette.length ≤ c2sec.paletteIndex ((0 <<< 8) ||| (0 <<< 4) ||| 0) ∧
    c2sec.blockName 0 0 0 = "minecraft:air" :=
  ⟨by decide, c2_palette_fallback c2sec 0 0 0 (by decide)⟩

/-! ## C6 — pinned transform outputs (Scenario B) -/

/-- C6: output sizes swap x and z between rot=0 and rot=90; facing=east becomes
facing=south at rot=90 (also at the whole-state level); under left_right alone
(rot=0) east stays east, because left_right flips only north and south. -/
theorem c6_pinned_transforms :
    (∀ sx sy sz : Int,
      rotateSize (sx, sy, sz) 0 = (sx, sy, sz) ∧ rotateSize (sx, sy, sz) 90 = (sz, sy, sx)) ∧
    transformDir ("east".toList) 90 ("none".toList) = "south".toList ∧
    transformState ("minecraft:oak_stairs[facing=east,half=bottom]".toList) 90 ("none".toList) =
      some ("minecraft:oak_stairs[facing=south,half=bottom]".toList) ∧
    transformDir ("east".toList) 0 ("left_right".toList) = "east".toList ∧
    transformDir ("north".toList) 0 ("left_right".toList) = "south".toList ∧
    transformDir ("south".toList) 0 ("left_right".toList) = "north".toList ∧
    (∀ d : Str, d ≠ "north".toList → d ≠ "south".toList →
      transformDir d 0 ("left_right".toList) = d) := by
  refine ⟨?_, by decide, by decide, by decide, by decide, by decide, ?_⟩
  · intro sx sy sz
    constructor <;> simp [rotateSize]
  · intro d h1 h2
    by_cases he : d = "east".toList
    · subst he; decide
    by_cases hw : d = "west".toList
    · subst hw; decide
    have h1' : d ≠ (['n', 'o', 'r', 't', 'h'] : Str) := h1
    have h2' : d ≠ (['s', 'o', 'u', 't', 'h'] : Str) := h2
    have he' : d ≠ (['e', 'a', 's', 't'] : Str) := he
    have hw' : d ≠ (['w', 'e', 's', 't'] : Str) := hw
    simp [transformDir, HORIZONTAL, listIdxOf?, h1', h2', he', hw',
      Ne.symm h1', Ne.symm h2', Ne.symm he', Ne.symm hw']

/-- C6 (witness): the generic left-right conjunct applied at the concrete
direction "west". -/
theorem c6_witness :
    ("west".toList ≠ ("north".toList : Str)) ∧ ("west".toList ≠ ("south".toList : Str)) ∧
    transformDir ("west".toList) 0 ("left_right".toList) = "west".toList :=
  ⟨by decide, by decide,
    c6_pinned_transforms.2.2.2.2.2.2 ("west".toList) (by decide) (by decide)⟩

/-! ## Helper facts about the concrete region files -/

theorem c3Header_length : c3Header.length = 8192 := by
  rw [c3Header, List.length_append, List.length_replicate]; rfl

theorem c4Header_length : c4Header.length = 8192 := by
  rw [c4Header, List.length_append, List.length_replicate]; rfl

/-- Evaluating `slotLoc` directly on the underlying file when the slot index is
known and the slice stays inside the first header sector. -/
theorem slotLoc_as_file (file : Bytes) (cx cz : Int) (idx : Nat)
    (hidx : ((cx - Int.fdiv cx 32 * 32) + (cz - Int.fdiv cz 32 * 32) * 32).toNat = idx)
    (h : idx * 4 + 4 ≤ 4096) :
    slotLoc ⟨file⟩ cx cz = (file.drop (idx * 4)).take 4 := by
  simp only [slotLoc, RegionFile.locations]
  rw [hidx]
  rw [show SECTOR_BYTES = 4096 from rfl, List.drop_take, List.take_take]
  congr 1
  omega

theorem c3File_take4 : c3File.take 4 = [0, 0, 2, 1] := by
  rw [c3File, c3Header, List.append_assoc]
  exact List.take_left' rfl

theorem c3File_offset : slotOffset ⟨c3File⟩ 0 0 = 2 := by
  unfold slotOffset
  rw [slotLoc_as_file c3File 0 0 0 (by decide) (by norm_num)]
  norm_num [c3File_take4]

theorem c3File_drop0 : c3File.drop 8192 = [0, 0, 0, 2, 3, 0] := by
  rw [c3File]
  exact List.drop_left' c3Header_length

theorem c3File_drop4 : c3File.drop 8196 = [3, 0] := by
  rw [show (8196 : Nat) = 8192 + 4 by norm_num, ← List.drop_drop, c3File_drop0]
  rfl

theorem c4File_length : c4File.length = 8198 := by
  rw [c4File, List.length_append, c4Header_length]; rfl

theorem c4File_init : RegionFile.init c4File = .ok ⟨c4File⟩ := by
  rw [RegionFile.init, if_neg]
  rw [c4File_length]
  norm_num [REGION_HEADER_BYTES]

theorem c4File_take4 : c4File.take 4 = [0, 0, 0, 0] := by
  rw [c4File, c4Header,
    show ([0, 0, 0, 0, 0, 0, 2, 1] : Bytes) = [0, 0, 0, 0] ++ [0, 0, 2, 1] from rfl,
    List.append_assoc, List.append_assoc]
  exact List.take_left' rfl

theorem c4File_offset00 : slotOffset ⟨c4File⟩ 0 0 = 0 := by
  unfold slotOffset
  rw [slotLoc_as_file c4File 0 0 0 (by decide) (by norm_num)]
  norm_num [c4File_take4]

theorem c4File_drop4take4 : (c4File.drop 4).take 4 = [0, 0, 2, 1] := by
  rw [c4File, c4Header, List.append_assoc,
    show ([0, 0, 0, 0, 0, 0, 2, 1] : Bytes) = [0, 0, 0, 0] ++ [0, 0, 2, 1] from rfl,
    List.append_assoc, List.drop_left' (show ([0, 0, 0, 0] : Bytes).length = 4 from rfl)]
  exact List.take_left' (show ([0, 0, 2, 1] : Bytes).length = 4 from rfl)

theorem c4File_offset10 : slotOffset ⟨c4File⟩ 1 0 = 2 := by
  unfold slotOffset
  rw [slotLoc_as_file c4File 1 0 1 (by decide) (by norm_num)]
  norm_num [c4File_drop4take4]

theorem c4File_drop0 : c4File.drop 8192 = [0, 0, 0, 2, 2, 7] := by
  rw [c4File]
  exact List.drop_left' c4Header_length

theorem c4File_drop4 : c4File.drop 8196 = [2, 7] := by
  rw [show (8196 : Nat) = 8192 + 4 by norm_num, ← List.drop_drop, c4File_drop0]
  rfl

theorem c4File_drop5 : c4File.drop 8197 = [7] := by
  rw [show (8197 : Nat) = 8192 + 5 by norm_num, ← List.drop_drop, c4File_drop0]
  rfl

/-- Symbolic evaluation of `chunkRecord` once the 4-byte length field and the
scheme byte of the record are known. -/
theorem chunkRecord_eval (rf : RegionFile) (g i : Bytes → Except String Bytes)
    (offset : Nat) (b0 b1 b2 b3 ct : Nat)
    (hlen : (rf.file.drop (offset * SECTOR_BYTES)).take 4 = [b0, b1, b2, b3])
    (hct : (rf.file.drop (offset * SECTOR_BYTES + 4)).take 1 = [ct]) :
    chunkRecord rf offset g i =
      (let data :=
        if beNat [b0, b1, b2, b3] = 0 then rf.file.drop (offset * SECTOR_BYTES + 5)
        else (rf.file.drop (offset * SECTOR_BYTES + 5)).take (beNat [b0, b1, b2, b3] - 1)
      if ct = 1 then (g data).map some
      else if ct = 2 then (i data).map some
      else .error "unknown chunk compression type") := by
  simp only [chunkRecord]
  rw [hlen, hct]
  norm_num

/-- Reading the present slot (1, 0) of `c4File` decompresses the one-byte
zlib-scheme payload. -/
theorem c4File_read10 (i : Bytes → Except String Bytes) (g : Bytes → Except String Bytes) :
    RegionFile.readChunkNbt ⟨c4File⟩ g i 1 0 = (i [7]).map some := by
  rw [RegionFile.readChunkNbt, if_neg (by rw [c4File_offset10]; norm_num), c4File_offset10]
  rw [chunkRecord_eval ⟨c4File⟩ g i 2 0 0 0 2 2
    (by rw [show (2 * SECTOR_BYTES : Nat) = 8192 from rfl]
        rw [show ((RegionFile.mk c4File).file : Bytes) = c4File from rfl, c4File_drop0]
        rfl)
    (by rw [show (2 * SECTOR_BYTES + 4 : Nat) = 8196 from rfl]
        rw [show ((RegionFile.mk c4File).file : Bytes) = c4File from rfl, c4File_drop4]
        rfl)]
  rw [show ((RegionFile.mk c4File).file : Bytes) = c4File from rfl,
    show (2 * SECTOR_BYTES + 5 : Nat) = 8197 from rfl, c4File_drop5]
  norm_num [beNat]


/-! ## C3 — chunk decompression schemes -/

theorem c3File_length : c3File.length = 8198 := by
  rw [c3File, List.length_append, c3Header_length]; rfl

theorem c3File_init : RegionFile.init c3File = .ok ⟨c3File⟩ := by
  rw [RegionFile.init, if_neg]
  rw [c3File_length]
  norm_num [REGION_HEADER_BYTES]

/-- C3 (code bug): on this concrete region file, slot (0, 0) is present with
compression scheme byte 3 — uncompressed, a valid scheme per the region
format, handled by three sibling readers in the repository — yet
`RegionFile.read_chunk_nbt` raises "unknown chunk compression type" instead of
returning the payload as-is: its if-chain only covers schemes 1 and 2. -/
theorem c3_scheme3_rejected :
    RegionFile.init c3File = .ok ⟨c3File⟩ ∧
    ∀ gunzip inflate : Bytes → Except String Bytes,
      RegionFile.readChunkNbt ⟨c3File⟩ gunzip inflate 0 0 =
        .error "unknown chunk compression type" := by
  refine ⟨c3File_init, ?_⟩
  intro g i
  rw [RegionFile.readChunkNbt, if_neg (by rw [c3File_offset]; norm_num), c3File_offset]
  rw [chunkRecord_eval ⟨c3File⟩ g i 2 0 0 0 2 3
    (by rw [show (2 * SECTOR_BYTES : Nat) = 8192 from rfl]
        rw [show ((RegionFile.mk c3File).file : Bytes) = c3File from rfl, c3File_drop0]
        rfl)
    (by rw [show (2 * SECTOR_BYTES + 4 : Nat) = 8196 from rfl]
        rw [show ((RegionFile.mk c3File).file : Bytes) = c3File from rfl, c3File_drop4]
        rfl)]
  norm_num

/-! ## C4 — absent-chunk lookup -/

/-- C4 (counterexample): the claim says `read_chunk` returns None when the
region file is shorter than the two 4096-byte header sectors; on an empty file
the reader raises "short region header" from the constructor instead. -/
theorem c4_counterexample :
    readChunkFromFile [] okId okId 0 0 = .error "short region header" ∧
    readChunkFromFile [] okId okId 0 0 ≠ .ok none := by
  constructor
  · rfl
  · intro h
    exact Except.noConfusion h

/-- C4 (amended): `read_chunk` returns None (not an error) whenever the slot's
24-bit sector offset is zero; a region file shorter than the two header
sectors is instead rejected with an error when the `RegionFile` is opened,
before any chunk can be read. -/
theorem c4_absent_chunk :
    (∀ (file : Bytes) (rf : RegionFile) (g i : Bytes → Except String Bytes) (cx cz : Int),
      RegionFile.init file = .ok rf →
      slotOffset rf cx cz = 0 →
      rf.readChunkNbt g i cx cz = .ok none) ∧
    (∀ (file : Bytes) (g i : Bytes → Except String Bytes) (cx cz : Int),
      file.length < REGION_HEADER_BYTES →
      readChunkFromFile file g i cx cz = .error "short region header") := by
  constructor
  · intro file rf g i cx cz _ hoff
    rw [RegionFile.readChunkNbt, if_pos hoff]
  · intro file g i cx cz h
    rw [readChunkFromFile, RegionFile.init, if_pos h]

/-- C4 (witness): on `c4File` — a well-formed region file with a mix of
present and absent slots — the absent slot (0, 0) reads as None. -/
theorem c4_witness :
    RegionFile.init c4File = .ok ⟨c4File⟩ ∧ slotOffset ⟨c4File⟩ 0 0 = 0 ∧
    RegionFile.readChunkNbt ⟨c4File⟩ okId okId 0 0 = .ok none :=
  ⟨c4File_init, c4File_offset00,
    c4_absent_chunk.1 c4File ⟨c4File⟩ okId okId 0 0 c4File_init c4File_offset00⟩

/-! ## C10 — total "minecraft:air" default of the block lookup -/

/-- Symbolic evaluation of `get_chunk` when the region file exists, opens, and
the slot holds a payload that decompresses to `raw`. -/
theorem getChunk_eval (fs : WorldFS) (g i : Bytes → Except String Bytes)
    (p : Bytes → Except String Chunk) (cx cz : Int) (file : Bytes) (rf : RegionFile)
    (h : fs.regionFileBytes (Int.fdiv cx 32) (Int.fdiv cz 32) = some file)
    (hinit : RegionFile.init file = .ok rf)
    (raw : Bytes) (hread : rf.readChunkNbt g i cx cz = .ok (some raw)) :
    getChunk fs g i p cx cz = (p raw).map some := by
  simp only [getChunk, getRegion, h, hinit, hread, Except.map]

/-- Reading chunk (1, 0) of the world whose only region file is `c4File`
parses the decompressed payload with the supplied parser. -/
theorem c4FS_getChunk (c : Chunk) :
    getChunk c4FS okId okId (constParse c) 1 0 = .ok (some c) := by
  rw [getChunk_eval c4FS okId okId (constParse c) 1 0 c4File ⟨c4File⟩ rfl c4File_init [7]
    (by rw [c4File_read10 okId okId]; rfl)]
  rfl

/-- C10: `WorldReader.block_name` returns "minecraft:air" — and never raises —
when the containing region file does not exist, when the chunk slot's sector
offset is zero (absent chunk), when the chunk has no section at `y >> 4`, and
when the derived local x/z coordinates fall outside the 16-cell section bounds
(the local y, `y - (y >> 4) * 16`, is always in range). -/
theorem c10_block_name_total_default :
    (∀ (fs : WorldFS) (g i : Bytes → Except String Bytes)
        (p : Bytes → Except String Chunk) (x y z : Int),
      fs.regionFileBytes (Int.fdiv (Int.fdiv x 16) 32) (Int.fdiv (Int.fdiv z 16) 32) = none →
      worldBlockName fs g i p x y z = .ok "minecraft:air") ∧
    (∀ (fs : WorldFS) (g i : Bytes → Except String Bytes)
        (p : Bytes → Except String Chunk) (x y z : Int) (file : Bytes) (rf : RegionFile),
      fs.regionFileBytes (Int.fdiv (Int.fdiv x 16) 32) (Int.fdiv (Int.fdiv z 16) 32) =
        some file →
      RegionFile.init file = .ok rf →
      slotOffset rf (Int.fdiv x 16) (Int.fdiv z 16) = 0 →
      worldBlockName fs g i p x y z = .ok "minecraft:air") ∧
    (∀ (fs : WorldFS) (g i : Bytes → Except String Bytes)
        (p : Bytes → Except String Chunk) (c : Chunk) (x y z : Int),
      getChunk fs g i p (Int.fdiv x 16) (Int.fdiv z 16) = .ok (some c) →
      c.sections.find? (fun s => s.1 == Int.fdiv y 16) = none →
      worldBlockName fs g i p x y z = .ok "minecraft:air") ∧
    (∀ (fs : WorldFS) (g i : Bytes → Except String Bytes)
        (p : Bytes → Except String Chunk) (c : Chunk) (x y z : Int),
      getChunk fs g i p (Int.fdiv x 16) (Int.fdiv z 16) = .ok (some c) →
      (x - c.cx * 16 < 0 ∨ 15 < x - c.cx * 16 ∨ z - c.cz * 16 < 0 ∨ 15 < z - c.cz * 16) →
      worldBlockName fs g i p x y z = .ok "minecraft:air") := by
  refine ⟨?_, ?_, ?_, ?_⟩
  · intro fs g i p x y z h
    simp only [worldBlockName, getChunk, getRegion, h]
  · intro fs g i p x y z file rf h hr hoff
    have hread : rf.readChunkNbt g i (Int.fdiv x 16) (Int.fdiv z 16) = .ok none := by
      rw [RegionFile.readChunkNbt, if_pos hoff]
    simp only [worldBlockName, getChunk, getRegion, h, hr, Except.map, hread]
  · intro fs g i p c x y z hc hfind
    have hair : c.blockName x y z = "minecraft:air" := by
      simp only [Chunk.blockName]
      rw [hfind]
      rfl
    simp only [worldBlockName, hc, hair]
  · intro fs g i p c x y z hc hb
    have hair : c.blockName x y z = "minecraft:air" := by
      simp only [Chunk.blockName]
      cases hfind : c.sections.find? (fun s => s.1 == Int.fdiv y 16) with
      | none => rfl
      | some e =>
        simp only [Option.map_some']
        rw [if_neg]
        intro hcond
        simp only [Bool.and_eq_true, decide_eq_true_eq] at hcond
        omega
    simp only [worldBlockName, hc, hair]

/-- C10 (witness): all four default paths exercised on concrete worlds — no
region file at all, the absent slot of `c4File`, a parsed chunk without the
needed section, and a parsed chunk whose coordinates put the query out of the
local 16-cell range. -/
theorem c10_witness :
    worldBlockName emptyFS okId okId (constParse c10chunk) 0 0 0 = .ok "minecraft:air" ∧
    worldBlockName c4FS okId okId (constParse c10chunk) 0 0 0 = .ok "minecraft:air" ∧
    worldBlockName c4FS okId okId (constParse c10noSec) 16 0 0 = .ok "minecraft:air" ∧
    worldBlockName c4FS okId okId (constParse c10chunk) 16 99 0 = .ok "minecraft:air" :=
  ⟨c10_block_name_total_default.1 emptyFS okId okId (constParse c10chunk) 0 0 0 rfl,
   c10_block_name_total_default.2.1 c4FS okId okId (constParse c10chunk) 0 0 0 c4File
     ⟨c4File⟩ rfl c4File_init c4File_offset00,
   c10_block_name_total_default.2.2.1 c4FS okId okId (constParse c10noSec) c10noSec 16 0 0
     (c4FS_getChunk c10noSec) rfl,
   c10_block_name_total_default.2.2.2 c4FS okId okId (constParse c10chunk) c10chunk 16 99 0
     (c4FS_getChunk c10chunk) (by right; left; decide)⟩

/-! ## Grammar lemmas (used by C8 and C5) -/

theorem head?_append_left {l1 l2 : Str} (h : l1 ≠ []) : (l1 ++ l2).head? = l1.head? := by
  cases l1 with
  | nil => exact absurd rfl h
  | cons a t => rfl

theorem getLast?_append_right {l1 l2 : Str} (h : l2 ≠ []) :
    (l1 ++ l2).getLast? = l2.getLast? := by
  rw [List.getLast?_append]
  cases hl : l2.getLast? with
  | none => exact absurd (List.getLast?_eq_none_iff.mp hl) h
  | some a => rfl

theorem mem_pyStrip {c : Char} {s : Str} (h : c ∈ pyStrip s) : c ∈ s := by
  unfold pyStrip at h
  rw [List.mem_reverse] at h
  have h2 := (List.dropWhile_sublist _).subset h
  rw [List.mem_reverse] at h2
  exact (List.dropWhile_sublist _).subset h2

theorem head?_dropWhile {p : Char → Bool} {l : Str} {c : Char}
    (h : (l.dropWhile p).head? = some c) : p c = false := by
  induction l with
  | nil => simp [List.dropWhile] at h
  | cons a t ih =>
    rw [List.dropWhile_cons] at h
    by_cases hpa : p a = true
    · rw [if_pos hpa] at h
      exact ih h
    · rw [if_neg hpa] at h
      have : a = c := by simpa using h
      subst this
      exact Bool.not_eq_true _ |>.mp hpa

theorem pyStrip_eq_self {s : Str} (h : noEdgeSpace s) : pyStrip s = s := by
  obtain ⟨h1, h2⟩ := h
  have d1 : s.dropWhile pyIsSpace = s := by
    cases s with
    | nil => rfl
    | cons a t =>
      rw [List.dropWhile_cons, if_neg]
      simp [h1 a rfl]
  unfold pyStrip
  rw [d1]
  have d2 : s.reverse.dropWhile pyIsSpace = s.reverse := by
    cases hs : s.reverse with
    | nil => rfl
    | cons a t =>
      have hga : s.getLast? = some a := by
        rw [← List.head?_reverse, hs]
        rfl
      rw [List.dropWhile_cons, if_neg]
      simp [h2 a hga]
  rw [d2, List.reverse_reverse]

theorem noEdgeSpace_pyStrip (s : Str) : noEdgeSpace (pyStrip s) := by
  constructor
  · intro c hc
    unfold pyStrip at hc
    obtain ⟨pre, hpre⟩ := List.dropWhile_suffix (l := (s.dropWhile pyIsSpace).reverse)
      (p := pyIsSpace)
    have hne : ((s.dropWhile pyIsSpace).reverse.dropWhile pyIsSpace).reverse ≠ [] := by
      intro hempty
      rw [hempty] at hc
      exact Option.noConfusion hc
    have hX : ((s.dropWhile pyIsSpace).reverse.dropWhile pyIsSpace).reverse ++ pre.reverse =
        s.dropWhile pyIsSpace := by
      rw [← List.reverse_append, hpre, List.reverse_reverse]
    have hhead : (s.dropWhile pyIsSpace).head? = some c := by
      rw [← hX, head?_append_left hne]
      exact hc
    exact head?_dropWhile hhead
  · intro c hc
    unfold pyStrip at hc
    rw [List.getLast?_reverse] at hc
    exact head?_dropWhile hc

theorem nameChar_not_space {c : Char} (h : isNameChar c = true) : pyIsSpace c = false := by
  by_contra h2
  have h3 : pyIsSpace c = true := by
    cases hp : pyIsSpace c with
    | false => exact absurd hp h2
    | true => rfl
  have : ((((c = ' ' ∨ c = '\t') ∨ c = '\n') ∨ c = '\r') ∨ c = Char.ofNat 11) ∨
      c = Char.ofNat 12 := by
    simpa [pyIsSpace, beq_iff_eq] using h3
  rcases this with ((((rfl | rfl) | rfl) | rfl) | rfl) | rfl <;> revert h <;> decide

theorem splitFirst_eq {sep : Char} : ∀ {s a b : Str},
    splitFirst sep s = some (a, b) → s = a ++ sep :: b ∧ sep ∉ a := by
  intro s
  induction s with
  | nil => intro a b h; simp [splitFirst] at h
  | cons c t ih =>
    intro a b h
    rw [splitFirst] at h
    by_cases hc : c = sep
    · rw [if_pos hc] at h
      simp at h
      obtain ⟨ha, hb⟩ := h
      subst ha; subst hb; subst hc
      exact ⟨rfl, List.not_mem_nil _⟩
    · rw [if_neg hc] at h
      cases hsf : splitFirst sep t with
      | none => rw [hsf] at h; simp at h
      | some p =>
        rw [hsf] at h
        simp at h
        obtain ⟨ha, hb⟩ := h
        obtain ⟨ht, hmem⟩ := ih hsf
        subst hb
        rw [← ha]
        constructor
        · rw [ht]; rfl
        · intro hm
          rcases List.mem_cons.mp hm with rfl | hm2
          · exact hc rfl
          · exact hmem hm2

theorem splitFirst_append {sep : Char} : ∀ {a : Str} (b : Str), sep ∉ a →
    splitFirst sep (a ++ sep :: b) = some (a, b) := by
  intro a
  induction a with
  | nil => intro b _; rw [List.nil_append, splitFirst, if_pos rfl]
  | cons c t ih =>
    intro b hmem
    have hc : ¬(c = sep) := by
      intro h
      exact hmem (h ▸ List.mem_cons_self c t)
    have ht : sep ∉ t := fun h => hmem (List.mem_cons_of_mem c h)
    rw [List.cons_append, splitFirst, if_neg hc, ih b ht]
    rfl

theorem splitOnChar_ne_nil (sep : Char) : ∀ s : Str, splitOnChar sep s ≠ [] := by
  intro s
  induction s with
  | nil => simp [splitOnChar]
  | cons c t ih =>
    rw [splitOnChar]
    by_cases hc : c = sep
    · rw [if_pos hc]; simp
    · rw [if_neg hc]
      cases hsp : splitOnChar sep t with
      | nil => simp
      | cons p ps => simp

theorem splitOnChar_of_not_mem {sep : Char} : ∀ {s : Str}, sep ∉ s → splitOnChar sep s = [s] := by
  intro s
  induction s with
  | nil => intro _; rfl
  | cons c t ih =>
    intro h
    have hc : ¬(c = sep) := fun hh => h (hh ▸ List.mem_cons_self c t)
    rw [splitOnChar, if_neg hc, ih (fun hm => h (List.mem_cons_of_mem c hm))]

theorem splitOnChar_append {sep : Char} : ∀ {a : Str} (r : Str), sep ∉ a →
    splitOnChar sep (a ++ sep :: r) = a :: splitOnChar sep r := by
  intro a
  induction a with
  | nil =>
    intro r _
    rw [List.nil_append, splitOnChar, if_pos rfl]
  | cons c t ih =>
    intro r hmem
    have hc : ¬(c = sep) := fun hh => hmem (hh ▸ List.mem_cons_self c t)
    rw [List.cons_append, splitOnChar, if_neg hc, ih r (fun hm => hmem (List.mem_cons_of_mem c hm))]

theorem splitOn_join {sep : Char} : ∀ (xs : List Str), xs ≠ [] → (∀ x ∈ xs, sep ∉ x) →
    splitOnChar sep (joinStrs [sep] xs) = xs := by
  intro xs
  induction xs with
  | nil => intro h; exact absurd rfl h
  | cons x ys ih =>
    intro _ hfree
    cases ys with
    | nil =>
      rw [joinStrs]
      exact splitOnChar_of_not_mem (hfree x (List.mem_cons_self x []))
    | cons y zs =>
      rw [joinStrs, show x ++ [sep] ++ joinStrs [sep] (y :: zs) =
        x ++ sep :: joinStrs [sep] (y :: zs) from by simp]
      rw [splitOnChar_append _ (hfree x (List.mem_cons_self x (y :: zs)))]
      rw [ih (by simp) (fun z hz => hfree z (List.mem_cons_of_mem x hz))]

theorem mem_of_mem_splitOnChar {sep c : Char} : ∀ {s x : Str},
    x ∈ splitOnChar sep s → c ∈ x → c ∈ s := by
  intro s
  induction s with
  | nil =>
    intro x hx hc
    simp [splitOnChar] at hx
    subst hx
    exact absurd hc (List.not_mem_nil c)
  | cons a t ih =>
    intro x hx hc
    rw [splitOnChar] at hx
    by_cases ha : a = sep
    · rw [if_pos ha] at hx
      rcases List.mem_cons.mp hx with rfl | hx2
      · exact absurd hc (List.not_mem_nil c)
      · exact List.mem_cons_of_mem a (ih hx2 hc)
    · rw [if_neg ha] at hx
      cases hsp : splitOnChar sep t with
      | nil => exact absurd hsp (splitOnChar_ne_nil sep t)
      | cons p ps =>
        rw [hsp] at hx
        rcases List.mem_cons.mp hx with rfl | hx2
        · rcases List.mem_cons.mp hc with rfl | hc2
          · exact List.mem_cons_self c t
          · exact List.mem_cons_of_mem a (ih (hsp ▸ List.mem_cons_self p ps) hc2)
        · exact List.mem_cons_of_mem a (ih (hsp ▸ List.mem_cons_of_mem p hx2) hc)

theorem sep_not_mem_of_mem_splitOnChar {sep : Char} : ∀ {s x : Str},
    x ∈ splitOnChar sep s → sep ∉ x := by
  intro s
  induction s with
  | nil =>
    intro x hx
    simp [splitOnChar] at hx
    subst hx
    exact List.not_mem_nil sep
  | cons a t ih =>
    intro x hx
    rw [splitOnChar] at hx
    by_cases ha : a = sep
    · rw [if_pos ha] at hx
      rcases List.mem_cons.mp hx with rfl | hx2
      · exact List.not_mem_nil sep
      · exact ih hx2
    · rw [if_neg ha] at hx
      cases hsp : splitOnChar sep t with
      | nil => exact absurd hsp (splitOnChar_ne_nil sep t)
      | cons p ps =>
        rw [hsp] at hx
        rcases List.mem_cons.mp hx with rfl | hx2
        · intro hm
          rcases List.mem_cons.mp hm with rfl | hm2
          · exact ha rfl
          · exact ih (hsp ▸ List.mem_cons_self p ps) hm2
        · exact ih (hsp ▸ List.mem_cons_of_mem p hx2)

theorem mem_joinStrs {sep c : Char} : ∀ {xs : List Str},
    c ∈ joinStrs [sep] xs → c = sep ∨ ∃ x ∈ xs, c ∈ x := by
  intro xs
  induction xs with
  | nil => intro h; exact absurd h (List.not_mem_nil c)
  | cons x ys ih =>
    intro h
    cases ys with
    | nil =>
      rw [joinStrs] at h
      exact Or.inr ⟨x, List.mem_cons_self x [], h⟩
    | cons y zs =>
      rw [joinStrs] at h
      rcases List.mem_append.mp h with h1 | h2
      · rcases List.mem_append.mp h1 with h3 | h4
        · exact Or.inr ⟨x, List.mem_cons_self x (y :: zs), h3⟩
        · left
          simpa using h4
      · rcases ih h2 with h5 | ⟨z, hz, hcz⟩
        · exact Or.inl h5
        · exact Or.inr ⟨z, List.mem_cons_of_mem x hz, hcz⟩

theorem any_key_eq_false {acc : List (Str × Str)} {k : Str}
    (h : k ∉ acc.map Prod.fst) : acc.any (fun kv => kv.1 == k) = false := by
  rw [List.any_eq_false]
  intro kv hkv he2
  exact h (List.mem_map.mpr ⟨kv, hkv, beq_iff_eq.mp he2⟩)

theorem key_not_mem_of_any_eq_false {acc : List (Str × Str)} {k : Str}
    (h : acc.any (fun kv => kv.1 == k) = false) : k ∉ acc.map Prod.fst := by
  rw [List.any_eq_false] at h
  intro hm
  obtain ⟨kv, hkv, he⟩ := List.mem_map.mp hm
  exact h kv hkv (beq_iff_eq.mpr he)

theorem parsePropSegs_wf : ∀ (segs : List Str) (acc ps : List (Str × Str)),
    (∀ s ∈ segs, (',' : Char) ∉ s ∧ ('\n' : Char) ∉ s) →
    (∀ kv ∈ acc, WfKey kv.1 ∧ WfVal kv.2) →
    (acc.map Prod.fst).Nodup →
    parsePropSegs segs acc = some ps →
    (∀ kv ∈ ps, WfKey kv.1 ∧ WfVal kv.2) ∧ (ps.map Prod.fst).Nodup := by
  intro segs
  induction segs with
  | nil =>
    intro acc ps _ hacc hnod h
    simp only [parsePropSegs] at h
    obtain rfl : acc = ps := by simpa using h
    exact ⟨hacc, hnod⟩
  | cons seg rest ih =>
    intro acc ps hfree hacc hnod h
    simp only [parsePropSegs] at h
    by_cases he : (pyStrip seg).isEmpty = true
    · rw [if_pos he] at h
      exact ih acc ps (fun s hs => hfree s (List.mem_cons_of_mem seg hs)) hacc hnod h
    · rw [if_neg he] at h
      cases hsf : splitFirst '=' (pyStrip seg) with
      | none => rw [hsf] at h; exact Option.noConfusion h
      | some p =>
        obtain ⟨k0, v0⟩ := p
        rw [hsf] at h
        replace h : (if ((pyStrip k0).isEmpty || (pyStrip v0).isEmpty) = true then none
            else if (acc.any fun kv => kv.1 == pyStrip k0) = true then none
            else parsePropSegs rest (acc ++ [(pyStrip k0, pyStrip v0)])) = some ps := h
        by_cases hkv : ((pyStrip k0).isEmpty || (pyStrip v0).isEmpty) = true
        · rw [if_pos hkv] at h; exact Option.noConfusion h
        · rw [if_neg hkv] at h
          by_cases hdup : (acc.any fun kv => kv.1 == pyStrip k0) = true
          · rw [if_pos hdup] at h; exact Option.noConfusion h
          · rw [if_neg hdup] at h
            have hkne : pyStrip k0 ≠ [] := by
              intro hh
              exact hkv (by rw [hh]; simp)
            have hvne : pyStrip v0 ≠ [] := by
              intro hh
              exact hkv (by rw [hh]; simp)
            obtain ⟨hseg, hknotin⟩ := splitFirst_eq hsf
            have hsub : ∀ c : Char, c ∈ pyStrip k0 → c ∈ seg := by
              intro c hc
              have h1 : c ∈ k0 := mem_pyStrip hc
              have h2 : c ∈ pyStrip seg := by
                rw [hseg]
                exact List.mem_append.mpr (Or.inl h1)
              exact mem_pyStrip h2
            have hsubv : ∀ c : Char, c ∈ pyStrip v0 → c ∈ seg := by
              intro c hc
              have h1 : c ∈ v0 := mem_pyStrip hc
              have h2 : c ∈ pyStrip seg := by
                rw [hseg]
                exact List.mem_append.mpr (Or.inr (List.mem_cons_of_mem _ h1))
              exact mem_pyStrip h2
            have hwfk : WfKey (pyStrip k0) := by
              refine ⟨hkne, noEdgeSpace_pyStrip k0, ?_, ?_, ?_⟩
              · intro hm
                exact (hfree seg (List.mem_cons_self seg rest)).1 (hsub ',' hm)
              · intro hm
                exact (hfree seg (List.mem_cons_self seg rest)).2 (hsub '\n' hm)
              · intro hm
                exact hknotin (mem_pyStrip hm)
            have hwfv : WfVal (pyStrip v0) := by
              refine ⟨hvne, noEdgeSpace_pyStrip v0, ?_, ?_⟩
              · intro hm
                exact (hfree seg (List.mem_cons_self seg rest)).1 (hsubv ',' hm)
              · intro hm
                exact (hfree seg (List.mem_cons_self seg rest)).2 (hsubv '\n' hm)
            refine ih (acc ++ [(pyStrip k0, pyStrip v0)]) ps
              (fun s hs => hfree s (List.mem_cons_of_mem seg hs)) ?_ ?_ h
            · intro kv hkv2
              rcases List.mem_append.mp hkv2 with h1 | h2
              · exact hacc kv h1
              · obtain rfl : kv = (pyStrip k0, pyStrip v0) := by simpa using h2
                exact ⟨hwfk, hwfv⟩
            · rw [List.map_append]
              rw [List.nodup_append]
              refine ⟨hnod, by simp, ?_⟩
              intro a ha hb
              obtain rfl : a = pyStrip k0 := by simpa using hb
              have : (pyStrip k0) ∉ acc.map Prod.fst :=
                key_not_mem_of_any_eq_false (Bool.not_eq_true _ |>.mp hdup)
              exact this ha

theorem parsePropSegs_canonical : ∀ (qs acc : List (Str × Str)),
    (∀ kv ∈ qs, WfKey kv.1 ∧ WfVal kv.2) →
    (acc.map Prod.fst ++ qs.map Prod.fst).Nodup →
    parsePropSegs (qs.map (fun kv => kv.1 ++ '=' :: kv.2)) acc = some (acc ++ qs) := by
  intro qs
  induction qs with
  | nil =>
    intro acc _ _
    simp [parsePropSegs]
  | cons kv qs ih =>
    intro acc hwf hnod
    obtain ⟨k, v⟩ := kv
    obtain ⟨⟨hk1, hk2, hk3, hk4, hk5⟩, hv1, hv2, hv3, hv4⟩ := hwf (k, v) (List.mem_cons_self _ _)
    dsimp only at hk1 hk2 hk3 hk4 hk5 hv1 hv2 hv3 hv4
    have hedge : noEdgeSpace (k ++ '=' :: v) := by
      constructor
      · intro c hc
        rw [head?_append_left hk1] at hc
        exact hk2.1 c hc
      · intro c hc
        rw [show k ++ '=' :: v = k ++ ([('=' : Char)] ++ v) from rfl,
          getLast?_append_right (by simp), getLast?_append_right hv1] at hc
        exact hv2.2 c hc
    have hstrip : pyStrip (k ++ '=' :: v) = k ++ '=' :: v := pyStrip_eq_self hedge
    simp only [List.map_cons, parsePropSegs]
    rw [hstrip, if_neg (by simp [hk1]), splitFirst_append v hk5]
    rw [show (match some (k, v) with
      | none => none
      | some (kk, vv) =>
        if ((pyStrip kk).isEmpty || (pyStrip vv).isEmpty) = true then none
        else if (acc.any fun kv => kv.1 == pyStrip kk) = true then none
        else parsePropSegs (qs.map fun kv => kv.1 ++ '=' :: kv.2)
          (acc ++ [(pyStrip kk, pyStrip vv)]) : Option (List (Str × Str))) =
      (if ((pyStrip k).isEmpty || (pyStrip v).isEmpty) = true then none
        else if (acc.any fun kv => kv.1 == pyStrip k) = true then none
        else parsePropSegs (qs.map fun kv => kv.1 ++ '=' :: kv.2)
          (acc ++ [(pyStrip k, pyStrip v)])) from rfl]
    rw [pyStrip_eq_self hk2, pyStrip_eq_self hv2, if_neg (by simp [hk1, hv1])]
    have hknotin : k ∉ acc.map Prod.fst := by
      rw [List.nodup_append] at hnod
      intro hm
      exact hnod.2.2 hm (by simp)
    rw [if_neg (by rw [any_key_eq_false hknotin]; exact Bool.false_ne_true)]
    have heq : (acc ++ [(k, v)]) ++ qs = acc ++ (k, v) :: qs := by
      rw [List.append_assoc]
      rfl
    rw [← heq]
    refine ih (acc ++ [(k, v)]) (fun kv2 h2 => hwf kv2 (List.mem_cons_of_mem _ h2)) ?_
    rw [List.map_append, List.append_assoc]
    simpa using hnod

theorem strLtB_asymm : ∀ {a b : Str}, strLtB a b = true → strLtB b a = false := by
  intro a
  induction a with
  | nil =>
    intro b h
    cases b with
    | nil => simp [strLtB] at h
    | cons d ds => simp [strLtB]
  | cons c cs ih =>
    intro b h
    cases b with
    | nil => simp [strLtB] at h
    | cons d ds =>
      simp only [strLtB] at h ⊢
      by_cases hcd : c < d
      · rw [if_neg (lt_asymm hcd), if_pos hcd]
      · rw [if_neg hcd] at h
        by_cases hdc : d < c
        · rw [if_pos hdc] at h
          exact absurd h (by simp)
        · rw [if_neg hdc] at h
          rw [if_neg hdc, if_neg hcd]
          exact ih h

theorem strLeB_of_not_le {a b : Str} (h : strLeB a b = false) : strLeB b a = true := by
  unfold strLeB at h ⊢
  have h1 : strLtB b a = true := by
    cases h2 : strLtB b a with
    | false => rw [h2] at h; exact absurd h (by simp)
    | true => rfl
  rw [strLtB_asymm h1]
  rfl

theorem insortPair_perm (kv : Str × Str) :
    ∀ l : List (Str × Str), List.Perm (insortPair kv l) (kv :: l) := by
  intro l
  induction l with
  | nil => simp [insortPair]
  | cons p ps ih =>
    unfold insortPair
    by_cases hle : strLeB kv.1 p.1 = true
    · rw [if_pos hle]
    · rw [if_neg hle]
      exact (List.Perm.cons p ih).trans (List.Perm.swap kv p ps)

theorem sortProps_perm : ∀ l : List (Str × Str), List.Perm (sortProps l) l := by
  intro l
  induction l with
  | nil => simp [sortProps]
  | cons p ps ih =>
    unfold sortProps
    exact ((insortPair_perm p (sortProps ps)).trans (List.Perm.cons p ih))

theorem insortPair_head (kv : Str × Str) : ∀ l : List (Str × Str),
    (insortPair kv l).head? = some kv ∨ (insortPair kv l).head? = l.head? := by
  intro l
  cases l with
  | nil => left; rfl
  | cons p ps =>
    unfold insortPair
    by_cases hle : strLeB kv.1 p.1 = true
    · rw [if_pos hle]; left; rfl
    · rw [if_neg hle]; right; rfl

theorem insortPair_chain {kv : Str × Str} : ∀ {l : List (Str × Str)},
    List.Chain' (fun p q : Str × Str => strLeB p.1 q.1 = true) l →
    List.Chain' (fun p q : Str × Str => strLeB p.1 q.1 = true) (insortPair kv l) := by
  intro l
  induction l with
  | nil => intro _; simp [insortPair]
  | cons p ps ih =>
    intro h
    unfold insortPair
    by_cases hle : strLeB kv.1 p.1 = true
    · rw [if_pos hle]
      exact List.Chain'.cons hle h
    · rw [if_neg hle]
      rw [List.chain'_cons'] at h ⊢
      refine ⟨?_, ih h.2⟩
      intro y hy
      rcases insortPair_head kv ps with hh | hh
      · rw [hh] at hy
        obtain rfl : kv = y := by simpa using hy
        exact strLeB_of_not_le (by simpa using hle)
      · rw [hh] at hy
        exact h.1 y hy

theorem sortProps_chain : ∀ l : List (Str × Str),
    List.Chain' (fun p q : Str × Str => strLeB p.1 q.1 = true) (sortProps l) := by
  intro l
  induction l with
  | nil => simp [sortProps]
  | cons p ps ih =>
    unfold sortProps
    exact insortPair_chain ih

theorem sortProps_of_chain : ∀ {l : List (Str × Str)},
    List.Chain' (fun p q : Str × Str => strLeB p.1 q.1 = true) l → sortProps l = l := by
  intro l
  induction l with
  | nil => intro _; rfl
  | cons p ps ih =>
    intro h
    unfold sortProps
    rw [ih h.tail]
    cases ps with
    | nil => rfl
    | cons q qs =>
      unfold insortPair
      rw [if_pos (List.chain'_cons.mp h).1]

theorem sortProps_idem (l : List (Str × Str)) : sortProps (sortProps l) = sortProps l :=
  sortProps_of_chain (sortProps_chain l)

theorem canonicalState_sortProps (n : Str) (ps : List (Str × Str)) :
    canonicalState n (sortProps ps) = canonicalState n ps := by
  unfold canonicalState
  have hlen := (sortProps_perm ps).length_eq
  have hemp : (sortProps ps).isEmpty = ps.isEmpty := by
    cases h1 : sortProps ps with
    | nil =>
      cases ps with
      | nil => rfl
      | cons q qs => rw [h1] at hlen; simp at hlen
    | cons a as =>
      cases ps with
      | nil => rw [h1] at hlen; simp at hlen
      | cons q qs => rfl
  rw [hemp, sortProps_idem]

theorem takeWhile_append_stop {p : Char → Bool} {c : Char} (hc : p c = false) :
    ∀ {l1 : Str} (l2 : Str), (∀ x ∈ l1, p x = true) → (l1 ++ c :: l2).takeWhile p = l1 := by
  intro l1
  induction l1 with
  | nil =>
    intro l2 _
    simp [List.takeWhile_cons, hc]
  | cons a as ih =>
    intro l2 h
    have ha : p a = true := h a (List.mem_cons_self a as)
    simp only [List.cons_append, List.takeWhile_cons, ha, if_true]
    rw [ih l2 (fun x hx => h x (List.mem_cons_of_mem a hx))]

theorem parseBlockState_wf {s : Str} {n : Str} {ps : List (Str × Str)}
    (h : parseBlockState s = some (n, ps)) : WfName n ∧ WfProps ps := by
  simp only [parseBlockState] at h
  by_cases h1 : ((pyStrip s).takeWhile isNameChar).isEmpty = true
  · rw [if_pos h1] at h; exact Option.noConfusion h
  · rw [if_neg h1] at h
    cases hd : (pyStrip s).drop ((pyStrip s).takeWhile isNameChar).length with
    | nil => rw [hd] at h; exact Option.noConfusion h
    | cons c r2 =>
      rw [hd] at h
      dsimp only at h
      by_cases hc : c = ':'
      case neg => rw [if_neg hc] at h; exact Option.noConfusion h
      rw [if_pos hc] at h
      by_cases h2 : (r2.takeWhile isNameChar).isEmpty = true
      · rw [if_pos h2] at h; exact Option.noConfusion h
      · rw [if_neg h2] at h
        have hname : WfName ((pyStrip s).takeWhile isNameChar ++ ':' :: r2.takeWhile isNameChar) := by
          refine ⟨_, _, rfl, ?_, ?_, ?_, ?_⟩
          · intro hh
            exact h1 (by rw [hh]; rfl)
          · intro hh
            exact h2 (by rw [hh]; rfl)
          · intro x hx
            exact List.mem_takeWhile_imp hx
          · intro x hx
            exact List.mem_takeWhile_imp hx
        cases hdd : r2.drop (r2.takeWhile isNameChar).length with
        | nil =>
          rw [hdd] at h
          rw [Option.some.injEq, Prod.mk.injEq] at h
          obtain ⟨rfl, rfl⟩ := h
          exact ⟨hname, by constructor <;> simp⟩
        | cons c2 rr =>
          rw [hdd] at h
          dsimp only at h
          by_cases hb : c2 = '['
          case neg => rw [if_neg hb] at h; exact Option.noConfusion h
          rw [if_pos hb] at h
          cases hgl : rr.getLast? with
          | none => rw [hgl] at h; exact Option.noConfusion h
          | some c3 =>
            rw [hgl] at h
            dsimp only at h
            by_cases hb2 : c3 = ']'
            case neg => rw [if_neg hb2] at h; exact Option.noConfusion h
            rw [if_pos hb2] at h
            by_cases hnl : rr.dropLast.contains '\n' = true
            · rw [if_pos hnl] at h; exact Option.noConfusion h
            · rw [if_neg hnl] at h
              have hnl2 : ('\n' : Char) ∉ rr.dropLast := by simpa using hnl
              cases hpp : parsePropSegs (splitOnChar ',' rr.dropLast) [] with
              | none => rw [hpp] at h; exact Option.noConfusion h
              | some qs =>
                rw [hpp] at h
                rw [Option.map_some', Option.some.injEq, Prod.mk.injEq] at h
                obtain ⟨rfl, rfl⟩ := h
                refine ⟨hname, parsePropSegs_wf _ [] qs ?_ (by simp) (by simp) hpp⟩
                intro seg hseg
                exact ⟨sep_not_mem_of_mem_splitOnChar hseg,
                  fun hm => hnl2 (mem_of_mem_splitOnChar hseg hm)⟩

theorem mem_of_head?_eq {l : Str} {c : Char} (h : l.head? = some c) : c ∈ l := by
  cases l with
  | nil => exact Option.noConfusion h
  | cons a as =>
    rw [List.head?_cons, Option.some.injEq] at h
    exact h ▸ List.mem_cons_self a as

theorem mem_of_getLast?_eq {l : Str} {c : Char} (h : l.getLast? = some c) : c ∈ l := by
  rw [← List.head?_reverse] at h
  exact List.mem_reverse.mp (mem_of_head?_eq h)

theorem isEmpty_ne_true {l : Str} (h : l ≠ []) : ¬(l.isEmpty = true) := by
  cases l with
  | nil => exact absurd rfl h
  | cons a as => simp

theorem parseBlockState_canonical {n : Str} {ps : List (Str × Str)}
    (hn : WfName n) (hps : WfProps ps) :
    parseBlockState (canonicalState n ps) = some (n, sortProps ps) := by
  obtain ⟨n1, n2, rfl, hn1, hn2, hc1, hc2⟩ := hn
  have htwn2 : List.takeWhile isNameChar n2 = n2 :=
    List.takeWhile_eq_self_iff.mpr (fun c hc => hc2 c hc)
  cases ps with
  | nil =>
    show parseBlockState (n1 ++ ':' :: n2) = some (n1 ++ ':' :: n2, [])
    have hstrip : pyStrip (n1 ++ ':' :: n2) = n1 ++ ':' :: n2 := by
      apply pyStrip_eq_self
      constructor
      · intro c hc
        rw [head?_append_left hn1] at hc
        exact nameChar_not_space (hc1 c (mem_of_head?_eq hc))
      · intro c hc
        rw [show n1 ++ ':' :: n2 = n1 ++ ([':'] ++ n2) from rfl,
          getLast?_append_right (by simp), getLast?_append_right hn2] at hc
        exact nameChar_not_space (hc2 c (mem_of_getLast?_eq hc))
    simp only [parseBlockState]
    rw [hstrip, takeWhile_append_stop (by decide) n2 hc1,
      if_neg (isEmpty_ne_true hn1), List.drop_left]
    dsimp only
    rw [if_pos rfl, htwn2, if_neg (isEmpty_ne_true hn2), List.drop_length]
  | cons q qs =>
    obtain ⟨hwf, hnod⟩ := hps
    have hperm : List.Perm (sortProps (q :: qs)) (q :: qs) := sortProps_perm (q :: qs)
    have hwfs : ∀ kv ∈ sortProps (q :: qs), WfKey kv.1 ∧ WfVal kv.2 :=
      fun kv hkv => hwf kv (hperm.mem_iff.mp hkv)
    have hsne : sortProps (q :: qs) ≠ [] := by
      intro hh
      have := hperm.length_eq
      rw [hh] at this
      simp at this
    have hshape : canonicalState (n1 ++ ':' :: n2) (q :: qs) =
        n1 ++ ':' :: (n2 ++ '[' ::
          (joinStrs [','] ((sortProps (q :: qs)).map (fun kv => kv.1 ++ '=' :: kv.2)) ++ [']'])) := by
      simp [canonicalState]
    have hnlb : ('\n' : Char) ∉
        joinStrs [','] ((sortProps (q :: qs)).map (fun kv => kv.1 ++ '=' :: kv.2)) := by
      intro hm
      rcases mem_joinStrs hm with h1 | ⟨x, hx, hcx⟩
      · exact absurd h1 (by decide)
      · obtain ⟨kv, hkv, rfl⟩ := List.mem_map.mp hx
        obtain ⟨hk, hv⟩ := hwfs kv hkv
        rcases List.mem_append.mp hcx with h2 | h2
        · exact hk.2.2.2.1 h2
        · rcases List.mem_cons.mp h2 with h3 | h3
          · exact absurd h3 (by decide)
          · exact hv.2.2.2 h3
    have hstrip : pyStrip (canonicalState (n1 ++ ':' :: n2) (q :: qs)) =
        canonicalState (n1 ++ ':' :: n2) (q :: qs) := by
      apply pyStrip_eq_self
      rw [hshape]
      constructor
      · intro c hc
        rw [head?_append_left hn1] at hc
        exact nameChar_not_space (hc1 c (mem_of_head?_eq hc))
      · intro c hc
        rw [show (n1 ++ ':' :: (n2 ++ '[' ::
            (joinStrs [','] ((sortProps (q :: qs)).map (fun kv => kv.1 ++ '=' :: kv.2)) ++ [']']))) =
          (n1 ++ ':' :: (n2 ++ '[' ::
            joinStrs [','] ((sortProps (q :: qs)).map (fun kv => kv.1 ++ '=' :: kv.2)))) ++ [']']
          from by simp, getLast?_append_right (by simp)] at hc
        obtain rfl : ']' = c := by simpa using hc
        decide
    rw [hshape] at hstrip ⊢
    simp only [parseBlockState]
    rw [hstrip, takeWhile_append_stop (by decide)
        (n2 ++ '[' :: (joinStrs [','] ((sortProps (q :: qs)).map (fun kv => kv.1 ++ '=' :: kv.2)) ++ [']']))
        hc1,
      if_neg (isEmpty_ne_true hn1), List.drop_left]
    dsimp only
    rw [if_pos rfl,
      takeWhile_append_stop (by decide)
        (joinStrs [','] ((sortProps (q :: qs)).map (fun kv => kv.1 ++ '=' :: kv.2)) ++ [']']) hc2,
      if_neg (isEmpty_ne_true hn2), List.drop_left]
    dsimp only
    rw [if_pos rfl, getLast?_append_right (show ([']'] : Str) ≠ [] by simp),
      show ([']'] : Str).getLast? = some ']' from rfl]
    dsimp only
    rw [if_pos rfl]
    rw [show (joinStrs [','] ((sortProps (q :: qs)).map (fun kv => kv.1 ++ '=' :: kv.2)) ++
        [']']).dropLast =
      joinStrs [','] ((sortProps (q :: qs)).map (fun kv => kv.1 ++ '=' :: kv.2)) from by simp]
    rw [if_neg (by simpa using hnlb)]
    rw [splitOn_join _ (by simpa using hsne) ?pfree]
    case pfree =>
      intro x hx
      obtain ⟨kv, hkv, rfl⟩ := List.mem_map.mp hx
      obtain ⟨hk, hv⟩ := hwfs kv hkv
      intro hm
      rcases List.mem_append.mp hm with h2 | h2
      · exact hk.2.2.1 h2
      · rcases List.mem_cons.mp h2 with h3 | h3
        · exact absurd h3 (by decide)
        · exact hv.2.2.1 h3
    rw [parsePropSegs_canonical (sortProps (q :: qs)) [] hwfs
      (by simpa using (hperm.map Prod.fst).nodup_iff.mpr hnod)]
    simp

/-- C8: canonicalization is idempotent: for every state string `s` the parser
accepts, re-parsing the canonical form of the parse result and canonicalizing
again returns the same canonical form; moreover `canonicalState` orders the
property pairs as a permutation sorted by key (Python `sorted` on distinct
keys), and omits the bracket clause entirely for an empty property map. -/
theorem c8_canonicalization_idempotent :
    (∀ s n ps, parseBlockState s = some (n, ps) →
      (parseBlockState (canonicalState n ps)).map (fun q => canonicalState q.1 q.2) =
        some (canonicalState n ps)) ∧
    (∀ ps : List (Str × Str), List.Perm (sortProps ps) ps ∧
      List.Chain' (fun p q : Str × Str => strLeB p.1 q.1 = true) (sortProps ps)) ∧
    (∀ n : Str, canonicalState n [] = n) := by
  refine ⟨?_, fun ps => ⟨sortProps_perm ps, sortProps_chain ps⟩, fun n => rfl⟩
  intro s n ps h
  obtain ⟨hn, hps⟩ := parseBlockState_wf h
  rw [parseBlockState_canonical hn hps, Option.map_some', canonicalState_sortProps]

theorem c8_witness :
    parseBlockState "m:a[b=1,a=2]".toList =
      some ("m:a".toList, [("b".toList, "1".toList), ("a".toList, "2".toList)]) ∧
    (parseBlockState (canonicalState "m:a".toList
        [("b".toList, "1".toList), ("a".toList, "2".toList)])).map
      (fun q => canonicalState q.1 q.2) =
      some (canonicalState "m:a".toList [("b".toList, "1".toList), ("a".toList, "2".toList)]) :=
  ⟨by decide, c8_canonicalization_idempotent.1 "m:a[b=1,a=2]".toList "m:a".toList
    [("b".toList, "1".toList), ("a".toList, "2".toList)] (by decide)⟩

/-! ## C7 — BitStorage round trip -/

/-- Extracting digit `k` of a packed word recovers the packed value, provided
every value fits in `w` bits. -/
theorem packWord_extract (w : Nat) :
    ∀ group : List Nat, (∀ v ∈ group, v < 2 ^ w) → ∀ k, k < group.length →
      (packWord w group >>> (k * w)) &&& (2 ^ w - 1) = group.getD k 0 := by
  intro group
  induction group with
  | nil => intro _ k hk; simp at hk
  | cons v vs ih =>
    intro hb k hk
    have hv : v < 2 ^ w := hb v (List.mem_cons_self v vs)
    cases k with
    | zero =>
      simp only [packWord, Nat.zero_mul, Nat.shiftRight_zero, Nat.shiftLeft_eq,
        Nat.and_pow_two_sub_one_eq_mod, Nat.add_mul_mod_self_right, List.getD_cons_zero]
      exact Nat.mod_eq_of_lt hv
    | succ k' =>
      have hstep : (v + packWord w vs * 2 ^ w) >>> ((k' + 1) * w) =
          packWord w vs >>> (k' * w) := by
        rw [Nat.shiftRight_eq_div_pow, Nat.shiftRight_eq_div_pow]
        have harr : (k' + 1) * w = w + k' * w := by ring
        rw [harr, pow_add, ← Nat.div_div_eq_div_mul]
        congr 1
        rw [Nat.add_mul_div_right v (packWord w vs) (Nat.pos_pow_of_pos w two_pos),
          Nat.div_eq_of_lt hv, Nat.zero_add]
      simp only [packWord, Nat.shiftLeft_eq, hstep, List.getD_cons_succ]
      exact ih (fun x hx => hb x (List.mem_cons_of_mem v hx)) k' (Nat.lt_of_succ_lt_succ hk)

/-- Reading back any packed index: the containing word is in range, and the
shift-and-mask recovers the original value. -/
theorem packBits_read (w : Nat) (hvpl : 0 < 64 / w) :
    ∀ (n : Nat) (vals : List Nat), vals.length ≤ n → (∀ v ∈ vals, v < 2 ^ w) →
      ∀ i, i < vals.length →
        i / (64 / w) < (packBits w vals).length ∧
        ((packBits w vals).getD (i / (64 / w)) 0 >>> (i % (64 / w) * w)) &&& (2 ^ w - 1) =
          vals.getD i 0 := by
  intro n
  induction n with
  | zero => intro vals hn _ i hi; omega
  | succ n ih =>
    intro vals hn hb i hi
    have hne : vals ≠ [] := by
      intro h; rw [h] at hi; simp at hi
    have hunf : packBits w vals =
        packWord w (vals.take (64 / w)) :: packBits w (vals.drop (64 / w)) := by
      rw [packBits, dif_neg hne, dif_neg (by omega)]
    by_cases hcase : i < 64 / w
    · have hdiv : i / (64 / w) = 0 := Nat.div_eq_of_lt hcase
      have hmod : i % (64 / w) = i := Nat.mod_eq_of_lt hcase
      rw [hunf, hdiv, hmod]
      refine ⟨by simp, ?_⟩
      have htake : (vals.take (64 / w)).getD i 0 = vals.getD i 0 := by
        rw [List.getD_eq_getElem?_getD, List.getD_eq_getElem?_getD,
          List.getElem?_take_of_lt hcase]
      rw [List.getD_cons_zero, packWord_extract w (vals.take (64 / w))
        (fun x hx => hb x (List.mem_of_mem_take hx)) i
        (by rw [List.length_take]; omega), htake]
    · have hge : 64 / w ≤ i := by omega
      have hdiv : i / (64 / w) = (i - 64 / w) / (64 / w) + 1 := by
        conv_lhs => rw [show i = (i - 64 / w) + 64 / w by omega]
        rw [Nat.add_div_right _ hvpl]
      have hmod : i % (64 / w) = (i - 64 / w) % (64 / w) := Nat.mod_eq_sub_mod hge
      have hlen : (vals.drop (64 / w)).length ≤ n := by
        rw [List.length_drop]; omega
      have hi' : i - 64 / w < (vals.drop (64 / w)).length := by
        rw [List.length_drop]; omega
      have hrest := ih (vals.drop (64 / w)) hlen
        (fun x hx => hb x (List.mem_of_mem_drop hx)) (i - 64 / w) hi'
      rw [hunf, hdiv, hmod]
      refine ⟨by simpa using Nat.succ_le_succ (Nat.succ_le_of_lt hrest.1), ?_⟩
      rw [List.getD_cons_succ]
      rw [hrest.2, List.getD_eq_getElem?_getD, List.getD_eq_getElem?_getD,
        List.getElem?_drop]
      congr 2
      omega

/-- C7: packing `N` values, each below `2 ^ w`, `values_per_long = 64 / w` to a
64-bit word at bit offsets `(i mod values_per_long) * w` (never spanning a
word) and reading them back through `Section.palette_index` reproduces the
original sequence; with width 6 the values-per-long count is 10, and an 11th
value starts a second word. -/
theorem c7_bitstorage_roundtrip :
    (∀ (pal : List String) (y : Int) (w : Nat) (vals : List Nat),
      2 ≤ pal.length →
      w = (WSection.mk y pal none none none).bits →
      w ≤ 64 →
      (∀ v ∈ vals, v < 2 ^ w) →
      ∀ i, i < vals.length →
        (WSection.mk y pal (some (packBits w vals)) none none).paletteIndex i =
          vals.getD i 0) ∧
    64 / 6 = 10 ∧
    ∀ vals : List Nat, vals.length = 11 → (packBits 6 vals).length = 2 := by
  refine ⟨?_, by decide, ?_⟩
  · intro pal y w vals hp hw h64 hb i hi
    have hbits : (WSection.mk y pal (some (packBits w vals)) none none).bits = w := by
      rw [hw]; rfl
    have hw4 : 4 ≤ w := by
      rw [hw, show (WSection.mk y pal none none none).bits
          = if pal.length ≤ 1 then 0 else max 4 (bitLength (pal.length - 1)) from rfl,
        if_neg (by omega)]
      exact le_max_left 4 _
    have hvpl : 0 < 64 / w := Nat.div_pos h64 (by omega)
    have hread := packBits_read w hvpl vals.length vals le_rfl hb i hi
    unfold WSection.paletteIndex
    simp only [hbits]
    rw [if_neg (by omega), if_neg (Nat.pos_iff_ne_zero.mp hvpl),
      if_neg (Nat.not_le.mpr hread.1)]
    rw [Nat.one_shiftLeft]
    exact hread.2
  · intro vals hlen
    have h1 : vals ≠ [] := by intro h; rw [h] at hlen; simp at hlen
    have h2 : vals.drop 10 ≠ [] := by
      intro h
      have := congrArg List.length h
      rw [List.length_drop, hlen] at this
      simp at this
    have h3 : vals.drop 20 = [] := List.drop_eq_nil_of_le (by omega)
    rw [packBits, dif_neg h1, dif_neg (by norm_num)]
    show ((packBits 6 (vals.drop (64 / 6))).length) + 1 = 2
    rw [packBits, dif_neg (by simpa using h2), dif_neg (by norm_num)]
    show ((packBits 6 ((vals.drop (64 / 6)).drop (64 / 6))).length) + 1 + 1 = 2
    norm_num
    rw [h3, packBits]
    simp

/-- C7 (witness): a 33-entry palette gives width 6; 11 concrete values below
`2 ^ 6` pack into two words and `palette_index 10` reads the 11th value from
the second word. -/
theorem c7_witness :
    (2 ≤ (List.replicate 33 "s").length ∧
      (6 : Nat) = (WSection.mk 0 (List.replicate 33 "s") none none none).bits ∧
      (6 : Nat) ≤ 64 ∧
      (∀ v ∈ [1, 2, 3, 4, 5, 6, 7, 8, 9, 10, 63], v < 2 ^ 6) ∧
      10 < ([1, 2, 3, 4, 5, 6, 7, 8, 9, 10, 63] : List Nat).length) ∧
    (WSection.mk 0 (List.replicate 33 "s")
        (some (packBits 6 [1, 2, 3, 4, 5, 6, 7, 8, 9, 10, 63])) none none).paletteIndex 10 =
      ([1, 2, 3, 4, 5, 6, 7, 8, 9, 10, 63] : List Nat).getD 10 0 :=
  ⟨⟨by decide, by decide, by decide, by decide, by decide⟩,
    c7_bitstorage_roundtrip.1 (List.replicate 33 "s") 0 6 [1, 2, 3, 4, 5, 6, 7, 8, 9, 10, 63]
      (by decide) (by decide) (by decide) (by decide) 10 (by decide)⟩

/-! ## C5 — rotation and mirror identity laws -/

theorem wfVal_of_bool {v : Str}
    (h : (!v.isEmpty && (v.head?.all fun c => !pyIsSpace c) &&
      ((v.getLast?).all fun c => !pyIsSpace c) &&
      !v.contains ',' && !v.contains '\n') = true) : WfVal v := by
  simp only [Bool.and_eq_true, Bool.not_eq_true'] at h
  obtain ⟨⟨⟨⟨h1, h2⟩, h3⟩, h4⟩, h5⟩ := h
  refine ⟨?_, ⟨?_, ?_⟩, ?_, ?_⟩
  · intro hh
    rw [hh] at h1
    exact absurd h1 (by decide)
  · intro c hc
    rw [hc] at h2
    simpa using h2
  · intro c hc
    rw [hc] at h3
    simpa using h3
  · simpa using h4
  · simpa using h5

theorem mem_H_cases {x : Str} (hx : x ∈ HORIZONTAL) :
    x = "north".toList ∨ x = "east".toList ∨ x = "south".toList ∨ x = "west".toList := by
  simpa [HORIZONTAL] using hx

theorem wfVal_of_H : ∀ x ∈ HORIZONTAL, WfVal x := by
  intro x hx
  rcases mem_H_cases hx with rfl | rfl | rfl | rfl
  · exact wfVal_of_bool (by decide)
  · exact wfVal_of_bool (by decide)
  · exact wfVal_of_bool (by decide)
  · exact wfVal_of_bool (by decide)

theorem getD_H_mem : ∀ j < 4, ∀ d : Str, HORIZONTAL.getD j d ∈ HORIZONTAL := by
  intro j hj d
  interval_cases j <;> simp [HORIZONTAL, List.getD]

theorem transformDir_mem_or_eq (d : Str) (rot : Nat) (m : Str) :
    transformDir d rot m ∈ HORIZONTAL ∨ transformDir d rot m = d := by
  unfold transformDir
  cases hio : listIdxOf? d HORIZONTAL with
  | none =>
    dsimp only
    split
    · split
      · exact Or.inl (by decide)
      · split
        · exact Or.inl (by decide)
        · exact Or.inr rfl
    · split
      · split
        · exact Or.inl (by decide)
        · split
          · exact Or.inl (by decide)
          · exact Or.inr rfl
      · exact Or.inr rfl
  | some i =>
    dsimp only
    have hmem : HORIZONTAL.getD ((i + rot / 90) % 4) d ∈ HORIZONTAL :=
      getD_H_mem _ (Nat.mod_lt _ (by decide)) d
    split
    · split
      · exact Or.inl (by decide)
      · split
        · exact Or.inl (by decide)
        · exact Or.inl hmem
    · split
      · split
        · exact Or.inl (by decide)
        · split
          · exact Or.inl (by decide)
          · exact Or.inl hmem
      · exact Or.inl hmem

theorem wfVal_transformDir {d : Str} (h : WfVal d) (rot : Nat) (m : Str) :
    WfVal (transformDir d rot m) := by
  rcases transformDir_mem_or_eq d rot m with hmem | heq
  · exact wfVal_of_H _ hmem
  · rw [heq]; exact h

theorem any_beq_mem {a : Str} : (HORIZONTAL.any (· == a)) = true ↔ a ∈ HORIZONTAL := by
  rw [List.any_eq_true]
  constructor
  · rintro ⟨x, hx, he⟩
    exact (beq_iff_eq.mp he) ▸ hx
  · intro hm
    exact ⟨a, hm, beq_iff_eq.mpr rfl⟩

theorem transformDir_not_mem {d : Str} (hd : d ∉ HORIZONTAL) {m : Str}
    (hm : m = "left_right".toList ∨ m = "front_back".toList ∨ m = "none".toList)
    (rot : Nat) : transformDir d rot m = d := by
  simp only [HORIZONTAL, List.mem_cons, List.not_mem_nil, or_false, not_or] at hd
  obtain ⟨h1, h2, h3, h4⟩ := hd
  have k1 : d ≠ (['n', 'o', 'r', 't', 'h'] : Str) := h1
  have k2 : d ≠ (['e', 'a', 's', 't'] : Str) := h2
  have k3 : d ≠ (['s', 'o', 'u', 't', 'h'] : Str) := h3
  have k4 : d ≠ (['w', 'e', 's', 't'] : Str) := h4
  have hio : listIdxOf? d HORIZONTAL = none := by
    simp [listIdxOf?, HORIZONTAL, Ne.symm k1, Ne.symm k2, Ne.symm k3, Ne.symm k4]
  unfold transformDir
  rw [hio]
  dsimp only
  rcases hm with rfl | rfl | rfl
  · simp [k1, k3]
  · simp [k2, k4]
  · simp

theorem underscore_not_mem_H : ∀ x ∈ HORIZONTAL, ('_' : Char) ∉ x := by
  intro x hx
  rcases mem_H_cases hx with rfl | rfl | rfl | rfl <;> decide

theorem transformDir_four (d : Str) :
    transformDir (transformDir (transformDir
      (transformDir d 90 "none".toList) 90 "none".toList) 90 "none".toList) 90 "none".toList
      = d := by
  by_cases hd : d ∈ HORIZONTAL
  · rcases mem_H_cases hd with rfl | rfl | rfl | rfl <;> decide
  · have hstep := transformDir_not_mem hd (Or.inr (Or.inr rfl)) 90
    rw [hstep, hstep, hstep, hstep]

theorem transformDir_mirror_two {m : Str}
    (hm : m = "left_right".toList ∨ m = "front_back".toList ∨ m = "none".toList)
    (d : Str) : transformDir (transformDir d 0 m) 0 m = d := by
  by_cases hd : d ∈ HORIZONTAL
  · rcases hm with rfl | rfl | rfl <;> rcases mem_H_cases hd with rfl | rfl | rfl | rfl <;> decide
  · have hstep := transformDir_not_mem hd hm 0
    rw [hstep, hstep]

theorem transformOrientation_not_split {o : Str} (h : splitFirst '_' o = none)
    (rot : Nat) (m : Str) : transformOrientation o rot m = o := by
  unfold transformOrientation
  rw [h]

theorem comp_collapse {m : Str}
    (hm : m = "left_right".toList ∨ m = "front_back".toList ∨ m = "none".toList)
    (rot : Nat) (y : Str) :
    (if HORIZONTAL.any (· == y) = true then transformDir y rot m else y) =
      transformDir y rot m := by
  by_cases h : HORIZONTAL.any (· == y) = true
  · rw [if_pos h]
  · rw [if_neg h]
    exact (transformDir_not_mem (fun hmem => h (any_beq_mem.mpr hmem)) hm rot).symm

theorem transformOrientation_eval {a : Str} (b : Str) (ha : ('_' : Char) ∉ a)
    {m : Str} (hm : m = "left_right".toList ∨ m = "front_back".toList ∨ m = "none".toList)
    (rot : Nat) :
    transformOrientation (a ++ '_' :: b) rot m =
      transformDir a rot m ++ '_' :: transformDir b rot m := by
  unfold transformOrientation
  rw [splitFirst_append b ha]
  dsimp only
  rw [comp_collapse hm rot a, comp_collapse hm rot b]

theorem no_underscore_transformDir {d : Str} (hd : ('_' : Char) ∉ d) (rot : Nat) (m : Str) :
    ('_' : Char) ∉ transformDir d rot m := by
  rcases transformDir_mem_or_eq d rot m with hmem | heq
  · exact underscore_not_mem_H _ hmem
  · rw [heq]; exact hd

theorem transformOrientation_four (o : Str) :
    transformOrientation (transformOrientation (transformOrientation
      (transformOrientation o 90 "none".toList) 90 "none".toList) 90 "none".toList)
      90 "none".toList = o := by
  cases hsp : splitFirst '_' o with
  | none =>
    have h := transformOrientation_not_split hsp 90 "none".toList
    rw [h, h, h, h]
  | some p =>
    obtain ⟨a, b⟩ := p
    obtain ⟨ho, hna⟩ := splitFirst_eq hsp
    subst ho
    have hm3 : ("none".toList : Str) = "left_right".toList ∨
        ("none".toList : Str) = "front_back".toList ∨
        ("none".toList : Str) = "none".toList := Or.inr (Or.inr rfl)
    have hna1 := no_underscore_transformDir hna 90 "none".toList
    have hna2 := no_underscore_transformDir hna1 90 "none".toList
    have hna3 := no_underscore_transformDir hna2 90 "none".toList
    rw [transformOrientation_eval b hna hm3 90,
      transformOrientation_eval _ hna1 hm3 90,
      transformOrientation_eval _ hna2 hm3 90,
      transformOrientation_eval _ hna3 hm3 90,
      transformDir_four, transformDir_four]

theorem transformOrientation_mirror_two {m : Str}
    (hm : m = "left_right".toList ∨ m = "front_back".toList ∨ m = "none".toList)
    (o : Str) : transformOrientation (transformOrientation o 0 m) 0 m = o := by
  cases hsp : splitFirst '_' o with
  | none =>
    have h := transformOrientation_not_split hsp 0 m
    rw [h, h]
  | some p =>
    obtain ⟨a, b⟩ := p
    obtain ⟨ho, hna⟩ := splitFirst_eq hsp
    subst ho
    have hna1 := no_underscore_transformDir hna 0 m
    rw [transformOrientation_eval b hna hm 0,
      transformOrientation_eval _ hna1 hm 0,
      transformDir_mirror_two hm, transformDir_mirror_two hm]

theorem transformAxis_zero (a : Str) : transformAxis a 0 = a := by
  simp [transformAxis]

theorem transformAxis_90_four (a : Str) :
    transformAxis (transformAxis (transformAxis (transformAxis a 90) 90) 90) 90 = a := by
  by_cases hx : a = "x".toList
  · subst hx; decide
  by_cases hy : a = "y".toList
  · subst hy; decide
  by_cases hz : a = "z".toList
  · subst hz; decide
  have hcond : (!(a == "x".toList || a == "y".toList || a == "z".toList)) = true := by
    simp only [Bool.not_eq_true', Bool.or_eq_false_iff, beq_eq_false_iff_ne]
    exact ⟨⟨hx, hy⟩, hz⟩
  have hstep : transformAxis a 90 = a := by
    unfold transformAxis
    rw [if_pos hcond]
  rw [hstep, hstep, hstep, hstep]

theorem transformPropPair_facing {k v : Str}
    (h1 : (k == "facing".toList || k == "horizontal_facing".toList) = true)
    (rot : Nat) (m : Str) :
    transformPropPair rot m (k, v) = (k, transformDir v rot m) := by
  unfold transformPropPair
  dsimp only
  rw [if_pos h1]

theorem transformPropPair_orientation {k v : Str}
    (h1 : (k == "facing".toList || k == "horizontal_facing".toList) = false)
    (h2 : (k == "orientation".toList) = true)
    (rot : Nat) (m : Str) :
    transformPropPair rot m (k, v) = (k, transformOrientation v rot m) := by
  unfold transformPropPair
  dsimp only
  rw [if_neg (by rw [h1]; exact Bool.false_ne_true), if_pos h2]

theorem transformPropPair_axis {k v : Str}
    (h1 : (k == "facing".toList || k == "horizontal_facing".toList) = false)
    (h2 : (k == "orientation".toList) = false)
    (h3 : (k == "axis".toList) = true)
    (rot : Nat) (m : Str) :
    transformPropPair rot m (k, v) = (k, transformAxis v rot) := by
  unfold transformPropPair
  dsimp only
  rw [if_neg (by rw [h1]; exact Bool.false_ne_true),
    if_neg (by rw [h2]; exact Bool.false_ne_true), if_pos h3]

theorem transformPropPair_other {k v : Str}
    (h1 : (k == "facing".toList || k == "horizontal_facing".toList) = false)
    (h2 : (k == "orientation".toList) = false)
    (h3 : (k == "axis".toList) = false)
    (rot : Nat) (m : Str) :
    transformPropPair rot m (k, v) = (k, v) := by
  unfold transformPropPair
  dsimp only
  rw [if_neg (by rw [h1]; exact Bool.false_ne_true),
    if_neg (by rw [h2]; exact Bool.false_ne_true),
    if_neg (by rw [h3]; exact Bool.false_ne_true)]

theorem transformPropPair_fst (rot : Nat) (m : Str) (kv : Str × Str) :
    (transformPropPair rot m kv).1 = kv.1 := by
  obtain ⟨k, v⟩ := kv
  by_cases h1 : (k == "facing".toList || k == "horizontal_facing".toList) = true
  · rw [transformPropPair_facing h1]
  · by_cases h2 : (k == "orientation".toList) = true
    · rw [transformPropPair_orientation (Bool.not_eq_true _ |>.mp h1) h2]
    · by_cases h3 : (k == "axis".toList) = true
      · rw [transformPropPair_axis (Bool.not_eq_true _ |>.mp h1)
          (Bool.not_eq_true _ |>.mp h2) h3]
      · rw [transformPropPair_other (Bool.not_eq_true _ |>.mp h1)
          (Bool.not_eq_true _ |>.mp h2) (Bool.not_eq_true _ |>.mp h3)]

theorem transformPropPair_four (kv : Str × Str) :
    transformPropPair 90 "none".toList (transformPropPair 90 "none".toList
      (transformPropPair 90 "none".toList (transformPropPair 90 "none".toList kv))) = kv := by
  obtain ⟨k, v⟩ := kv
  by_cases h1 : (k == "facing".toList || k == "horizontal_facing".toList) = true
  · rw [transformPropPair_facing h1, transformPropPair_facing h1,
      transformPropPair_facing h1, transformPropPair_facing h1, transformDir_four]
  · replace h1 := Bool.not_eq_true _ |>.mp h1
    by_cases h2 : (k == "orientation".toList) = true
    · rw [transformPropPair_orientation h1 h2, transformPropPair_orientation h1 h2,
        transformPropPair_orientation h1 h2, transformPropPair_orientation h1 h2,
        transformOrientation_four]
    · replace h2 := Bool.not_eq_true _ |>.mp h2
      by_cases h3 : (k == "axis".toList) = true
      · rw [transformPropPair_axis h1 h2 h3, transformPropPair_axis h1 h2 h3,
          transformPropPair_axis h1 h2 h3, transformPropPair_axis h1 h2 h3,
          transformAxis_90_four]
      · replace h3 := Bool.not_eq_true _ |>.mp h3
        rw [transformPropPair_other h1 h2 h3, transformPropPair_other h1 h2 h3,
          transformPropPair_other h1 h2 h3, transformPropPair_other h1 h2 h3]

theorem transformPropPair_mirror_two {m : Str}
    (hm : m = "left_right".toList ∨ m = "front_back".toList ∨ m = "none".toList)
    (kv : Str × Str) :
    transformPropPair 0 m (transformPropPair 0 m kv) = kv := by
  obtain ⟨k, v⟩ := kv
  by_cases h1 : (k == "facing".toList || k == "horizontal_facing".toList) = true
  · rw [transformPropPair_facing h1, transformPropPair_facing h1, transformDir_mirror_two hm]
  · replace h1 := Bool.not_eq_true _ |>.mp h1
    by_cases h2 : (k == "orientation".toList) = true
    · rw [transformPropPair_orientation h1 h2, transformPropPair_orientation h1 h2,
        transformOrientation_mirror_two hm]
    · replace h2 := Bool.not_eq_true _ |>.mp h2
      by_cases h3 : (k == "axis".toList) = true
      · rw [transformPropPair_axis h1 h2 h3, transformPropPair_axis h1 h2 h3,
          transformAxis_zero, transformAxis_zero]
      · replace h3 := Bool.not_eq_true _ |>.mp h3
        rw [transformPropPair_other h1 h2 h3, transformPropPair_other h1 h2 h3]

theorem wfVal_transformOrientation {v : Str} (h : WfVal v)
    {m : Str} (hm : m = "left_right".toList ∨ m = "front_back".toList ∨ m = "none".toList)
    (rot : Nat) : WfVal (transformOrientation v rot m) := by
  cases hsp : splitFirst '_' v with
  | none => rw [transformOrientation_not_split hsp]; exact h
  | some p =>
    obtain ⟨a, b⟩ := p
    obtain ⟨hv, hna⟩ := splitFirst_eq hsp
    subst hv
    rw [transformOrientation_eval b hna hm rot]
    have hAhead : ∀ c, (transformDir a rot m).head? = some c → pyIsSpace c = false := by
      rcases transformDir_mem_or_eq a rot m with hmem | heq
      · exact (wfVal_of_H _ hmem).2.1.1
      · rw [heq]
        intro c hc
        cases a with
        | nil => exact Option.noConfusion hc
        | cons x xs =>
          apply h.2.1.1 c
          rw [head?_append_left (List.cons_ne_nil x xs)]
          exact hc
    have hBlast : ∀ c, (transformDir b rot m).getLast? = some c → pyIsSpace c = false := by
      rcases transformDir_mem_or_eq b rot m with hmem | heq
      · exact (wfVal_of_H _ hmem).2.1.2
      · rw [heq]
        intro c hc
        cases b with
        | nil => exact Option.noConfusion hc
        | cons y ys =>
          apply h.2.1.2 c
          rw [show a ++ '_' :: y :: ys = (a ++ ['_']) ++ y :: ys from by simp,
            getLast?_append_right (List.cons_ne_nil y ys)]
          exact hc
    have hAc : (',' : Char) ∉ transformDir a rot m := by
      rcases transformDir_mem_or_eq a rot m with hmem | heq
      · exact (wfVal_of_H _ hmem).2.2.1
      · rw [heq]
        intro hm2
        exact h.2.2.1 (List.mem_append.mpr (Or.inl hm2))
    have hBc : (',' : Char) ∉ transformDir b rot m := by
      rcases transformDir_mem_or_eq b rot m with hmem | heq
      · exact (wfVal_of_H _ hmem).2.2.1
      · rw [heq]
        intro hm2
        exact h.2.2.1 (List.mem_append.mpr (Or.inr (List.mem_cons_of_mem _ hm2)))
    have hAn : ('\n' : Char) ∉ transformDir a rot m := by
      rcases transformDir_mem_or_eq a rot m with hmem | heq
      · exact (wfVal_of_H _ hmem).2.2.2
      · rw [heq]
        intro hm2
        exact h.2.2.2 (List.mem_append.mpr (Or.inl hm2))
    have hBn : ('\n' : Char) ∉ transformDir b rot m := by
      rcases transformDir_mem_or_eq b rot m with hmem | heq
      · exact (wfVal_of_H _ hmem).2.2.2
      · rw [heq]
        intro hm2
        exact h.2.2.2 (List.mem_append.mpr (Or.inr (List.mem_cons_of_mem _ hm2)))
    refine ⟨?_, ⟨?_, ?_⟩, ?_, ?_⟩
    · intro hh
      rcases List.append_eq_nil.mp hh with ⟨_, hh2⟩
      exact List.noConfusion hh2
    · intro c hc
      cases hA2 : transformDir a rot m with
      | nil =>
        rw [hA2, List.nil_append, List.head?_cons, Option.some.injEq] at hc
        subst hc
        decide
      | cons x xs =>
        rw [head?_append_left (by rw [hA2]; exact List.cons_ne_nil x xs)] at hc
        exact hAhead c hc
    · intro c hc
      rw [show transformDir a rot m ++ '_' :: transformDir b rot m =
        (transformDir a rot m ++ ['_']) ++ transformDir b rot m from by simp] at hc
      cases hB2 : transformDir b rot m with
      | nil =>
        rw [hB2, List.append_nil, getLast?_append_right (List.cons_ne_nil '_' []),
          List.getLast?_singleton, Option.some.injEq] at hc
        subst hc
        decide
      | cons y ys =>
        rw [getLast?_append_right (by rw [hB2]; exact List.cons_ne_nil y ys)] at hc
        exact hBlast c hc
    · intro hm2
      rcases List.mem_append.mp hm2 with h2 | h2
      · exact hAc h2
      · rcases List.mem_cons.mp h2 with h3 | h3
        · exact absurd h3 (by decide)
        · exact hBc h3
    · intro hm2
      rcases List.mem_append.mp hm2 with h2 | h2
      · exact hAn h2
      · rcases List.mem_cons.mp h2 with h3 | h3
        · exact absurd h3 (by decide)
        · exact hBn h3

theorem wfVal_transformAxis {v : Str} (h : WfVal v) (rot : Nat) :
    WfVal (transformAxis v rot) := by
  unfold transformAxis
  split
  · exact h
  · split
    · exact h
    · split
      · split
        · exact wfVal_of_bool (by decide)
        · exact wfVal_of_bool (by decide)
      · exact h

theorem wfProps_map {ps : List (Str × Str)} (h : WfProps ps) (rot : Nat) {m : Str}
    (hm : m = "left_right".toList ∨ m = "front_back".toList ∨ m = "none".toList) :
    WfProps (ps.map (transformPropPair rot m)) := by
  constructor
  · intro kv hkv
    obtain ⟨kv0, hkv0, rfl⟩ := List.mem_map.mp hkv
    obtain ⟨hk, hv⟩ := h.1 kv0 hkv0
    refine ⟨?_, ?_⟩
    · rw [transformPropPair_fst]
      exact hk
    · obtain ⟨k, v⟩ := kv0
      by_cases h1 : (k == "facing".toList || k == "horizontal_facing".toList) = true
      · rw [transformPropPair_facing h1]
        exact wfVal_transformDir hv rot m
      · replace h1 := Bool.not_eq_true _ |>.mp h1
        by_cases h2 : (k == "orientation".toList) = true
        · rw [transformPropPair_orientation h1 h2]
          exact wfVal_transformOrientation hv hm rot
        · replace h2 := Bool.not_eq_true _ |>.mp h2
          by_cases h3 : (k == "axis".toList) = true
          · rw [transformPropPair_axis h1 h2 h3]
            exact wfVal_transformAxis hv rot
          · replace h3 := Bool.not_eq_true _ |>.mp h3
            rw [transformPropPair_other h1 h2 h3]
            exact hv
  · rw [List.map_map,
      show (Prod.fst ∘ transformPropPair rot m) = (Prod.fst : Str × Str → Str) from
        funext (fun kv => transformPropPair_fst rot m kv)]
    exact h.2

theorem wfProps_sortProps {ps : List (Str × Str)} (h : WfProps ps) :
    WfProps (sortProps ps) :=
  ⟨fun kv hkv => h.1 kv ((sortProps_perm ps).mem_iff.mp hkv),
    ((sortProps_perm ps).map Prod.fst).nodup_iff.mpr h.2⟩

theorem insortPair_map {f : Str × Str → Str × Str} (hf : ∀ kv, (f kv).1 = kv.1)
    (kv : Str × Str) : ∀ l : List (Str × Str),
    (insortPair kv l).map f = insortPair (f kv) (l.map f) := by
  intro l
  induction l with
  | nil => rfl
  | cons p ps ih =>
    simp only [insortPair, List.map_cons, hf]
    by_cases hle : strLeB kv.1 p.1 = true
    · rw [if_pos hle, if_pos hle]
      simp
    · rw [if_neg hle, if_neg hle]
      simp only [List.map_cons]
      rw [ih]

theorem sortProps_map {f : Str × Str → Str × Str} (hf : ∀ kv, (f kv).1 = kv.1) :
    ∀ l : List (Str × Str), sortProps (l.map f) = (sortProps l).map f := by
  intro l
  induction l with
  | nil => rfl
  | cons p ps ih =>
    simp only [List.map_cons, sortProps]
    rw [ih, insortPair_map hf]

theorem sortProps_length (l : List (Str × Str)) : (sortProps l).length = l.length :=
  (sortProps_perm l).length_eq

theorem isEmpty_of_length {l l' : List (Str × Str)} (h : l.length = l'.length) :
    l.isEmpty = l'.isEmpty := by
  cases l with
  | nil =>
    cases l' with
    | nil => rfl
    | cons a as => simp at h
  | cons a as =>
    cases l' with
    | nil => simp at h
    | cons b bs => rfl

theorem canonicalState_congr (n : Str) {l l' : List (Str × Str)}
    (h1 : l.isEmpty = l'.isEmpty) (h2 : sortProps l = sortProps l') :
    canonicalState n l = canonicalState n l' := by
  unfold canonicalState
  rw [h1, h2]

theorem transformState_step {s : Str} {n : Str} {ps : List (Str × Str)}
    (h : parseBlockState s = some (n, ps)) (rot : Nat) (m : Str) :
    transformState s rot m =
      some (canonicalState n (ps.map (transformPropPair rot m))) := by
  unfold transformState
  rw [h, Option.map_some']

theorem map_transformPropPair_four (l : List (Str × Str)) :
    (((l.map (transformPropPair 90 "none".toList)).map
      (transformPropPair 90 "none".toList)).map
      (transformPropPair 90 "none".toList)).map
      (transformPropPair 90 "none".toList) = l := by
  induction l with
  | nil => rfl
  | cons kv l ih =>
    simp only [List.map_cons]
    rw [transformPropPair_four kv, ih]

theorem map_transformPropPair_two {m : Str}
    (hm : m = "left_right".toList ∨ m = "front_back".toList ∨ m = "none".toList)
    (l : List (Str × Str)) :
    (l.map (transformPropPair 0 m)).map (transformPropPair 0 m) = l := by
  induction l with
  | nil => rfl
  | cons kv l ih =>
    simp only [List.map_cons]
    rw [transformPropPair_mirror_two hm kv, ih]

theorem transformState_four {s : Str} {n : Str} {ps : List (Str × Str)}
    (h : parseBlockState s = some (n, ps)) :
    (((transformState s 90 "none".toList).bind
        (fun t => transformState t 90 "none".toList)).bind
        (fun t => transformState t 90 "none".toList)).bind
        (fun t => transformState t 90 "none".toList) = some (canonicalState n ps) := by
  obtain ⟨hn, hps⟩ := parseBlockState_wf h
  have hm3 : ("none".toList : Str) = "left_right".toList ∨
      ("none".toList : Str) = "front_back".toList ∨
      ("none".toList : Str) = "none".toList := Or.inr (Or.inr rfl)
  have hf : ∀ kv : Str × Str, (transformPropPair 90 "none".toList kv).1 = kv.1 :=
    transformPropPair_fst 90 "none".toList
  have hps1 : WfProps (ps.map (transformPropPair 90 "none".toList)) :=
    wfProps_map hps 90 hm3
  have hps2 : WfProps ((sortProps (ps.map (transformPropPair 90 "none".toList))).map
      (transformPropPair 90 "none".toList)) :=
    wfProps_map (wfProps_sortProps hps1) 90 hm3
  have hps3 : WfProps ((sortProps ((sortProps (ps.map
      (transformPropPair 90 "none".toList))).map
      (transformPropPair 90 "none".toList))).map (transformPropPair 90 "none".toList)) :=
    wfProps_map (wfProps_sortProps hps2) 90 hm3
  rw [transformState_step h 90 "none".toList]
  dsimp only [Option.bind]
  rw [transformState_step (parseBlockState_canonical hn hps1) 90 "none".toList]
  dsimp only [Option.bind]
  rw [transformState_step (parseBlockState_canonical hn hps2) 90 "none".toList]
  dsimp only [Option.bind]
  rw [transformState_step (parseBlockState_canonical hn hps3) 90 "none".toList]
  congr 1
  apply canonicalState_congr
  · apply isEmpty_of_length
    simp [sortProps_length]
  · rw [sortProps_map hf, sortProps_idem, sortProps_map hf, sortProps_idem,
      sortProps_map hf, sortProps_idem, sortProps_map hf]
    exact map_transformPropPair_four (sortProps ps)

theorem transformState_mirror_two {m : Str}
    (hm : m = "left_right".toList ∨ m = "front_back".toList ∨ m = "none".toList)
    {s : Str} {n : Str} {ps : List (Str × Str)}
    (h : parseBlockState s = some (n, ps)) :
    (transformState s 0 m).bind (fun t => transformState t 0 m) =
      some (canonicalState n ps) := by
  obtain ⟨hn, hps⟩ := parseBlockState_wf h
  have hf : ∀ kv : Str × Str, (transformPropPair 0 m kv).1 = kv.1 :=
    transformPropPair_fst 0 m
  have hps1 : WfProps (ps.map (transformPropPair 0 m)) := wfProps_map hps 0 hm
  rw [transformState_step h 0 m]
  dsimp only [Option.bind]
  rw [transformState_step (parseBlockState_canonical hn hps1) 0 m]
  congr 1
  apply canonicalState_congr
  · apply isEmpty_of_length
    simp [sortProps_length]
  · rw [sortProps_map hf, sortProps_idem, sortProps_map hf]
    exact map_transformPropPair_two hm (sortProps ps)

/-- C5 (counterexample): at the state level the four-fold 90-degree transform is
not the literal identity: a parseable state whose properties are written out of
key order comes back in canonical (sorted) order, a different string. -/
theorem c5_counterexample :
    (((transformState "m:a[b=1,a=2]".toList 90 "none".toList).bind
        (fun t => transformState t 90 "none".toList)).bind
        (fun t => transformState t 90 "none".toList)).bind
        (fun t => transformState t 90 "none".toList) = some "m:a[a=2,b=1]".toList ∧
    "m:a[a=2,b=1]".toList ≠ "m:a[b=1,a=2]".toList := by
  constructor
  · decide
  · decide

/-- C5 (amended): four 90-degree rotation steps (threading the rotated box size
through each step) are the identity on every coordinate/size pair, and two
applications of the same supported mirror mode are; at the state level the
four-fold rotation (and the mirror pair) of any parseable state returns its
canonical form — the original string exactly when it was already canonical. -/
theorem c5_transform_identity :
    (∀ p size : Int × Int × Int,
      (((rotStep (p, size)).bind rotStep).bind rotStep).bind rotStep = some (p, size)) ∧
    (∀ m : Str, m = "left_right".toList ∨ m = "front_back".toList ∨ m = "none".toList →
      ∀ p size : Int × Int × Int,
        (mirStep m (p, size)).bind (mirStep m) = some (p, size)) ∧
    (∀ s n ps, parseBlockState s = some (n, ps) →
      (((transformState s 90 "none".toList).bind
          (fun t => transformState t 90 "none".toList)).bind
          (fun t => transformState t 90 "none".toList)).bind
          (fun t => transformState t 90 "none".toList) = some (canonicalState n ps)) ∧
    (∀ m : Str, m = "left_right".toList ∨ m = "front_back".toList ∨ m = "none".toList →
      ∀ s n ps, parseBlockState s = some (n, ps) →
        (transformState s 0 m).bind (fun t => transformState t 0 m) =
          some (canonicalState n ps)) := by
  refine ⟨?_, ?_, fun s n ps h => transformState_four h,
    fun m hm s n ps h => transformState_mirror_two hm h⟩
  · rintro ⟨x, y, z⟩ ⟨sx, sy, sz⟩
    simp [rotStep, rotatePos, rotateSize, Option.bind]
  · rintro m (rfl | rfl | rfl) ⟨x, y, z⟩ ⟨sx, sy, sz⟩ <;>
      simp [mirStep, mirrorPos, Option.bind]

theorem c5_witness :
    (((rotStep (((1 : Int), (2 : Int), (3 : Int)),
        ((7 : Int), (8 : Int), (9 : Int)))).bind rotStep).bind rotStep).bind rotStep =
      some (((1 : Int), (2 : Int), (3 : Int)), ((7 : Int), (8 : Int), (9 : Int))) ∧
    (((transformState "m:a[a=2,b=1]".toList 90 "none".toList).bind
        (fun t => transformState t 90 "none".toList)).bind
        (fun t => transformState t 90 "none".toList)).bind
        (fun t => transformState t 90 "none".toList) =
      some (canonicalState "m:a".toList [("a".toList, "2".toList), ("b".toList, "1".toList)]) :=
  ⟨c5_transform_identity.1 (1, 2, 3) (7, 8, 9),
   c5_transform_identity.2.2.1 "m:a[a=2,b=1]".toList "m:a".toList
     [("a".toList, "2".toList), ("b".toList, "1".toList)] (by decide)⟩

/-! ## C9 — plan validation of biome coverage and material keys -/

/-- C9: `validate_plan_shape` accepts only plans whose `palette_refs` key set is
exactly the supported biome set (a missing biome or an extra key each fail the
`biomeKeySetOk` test, spelled out as the set equality in the first conjunct),
and in an accepted plan every `material_key` referenced by a block is present
in every biome's palette mapping. -/
theorem c9_validator_biome_material :
    (∀ ks : List Str, biomeKeySetOk ks = true ↔
      ((∀ b ∈ SUPPORTED_BIOMES, b ∈ ks) ∧ (∀ k ∈ ks, k ∈ SUPPORTED_BIOMES))) ∧
    (∀ kvs prefs, jget kvs "palette_refs".toList = some (.jobj prefs) →
      validatePlanShape (.jobj kvs) = true →
      biomeKeySetOk (prefs.map Prod.fst) = true) ∧
    (∀ kvs prefs bs bkvs mk,
      jget kvs "palette_refs".toList = some (.jobj prefs) →
      jget kvs "blocks".toList = some (.jarr bs) →
      JVal.jobj bkvs ∈ bs →
      jget bkvs "material_key".toList = some (.jstr mk) →
      validatePlanShape (.jobj kvs) = true →
      ∀ biome ∈ SUPPORTED_BIOMES, ∃ pal,
        jget prefs biome = some (.jobj pal) ∧ pal.any (fun kv => kv.1 == mk) = true) := by
  refine ⟨?_, ?_, ?_⟩
  · intro ks
    unfold biomeKeySetOk
    rw [Bool.and_eq_true, List.all_eq_true, List.all_eq_true]
    constructor
    · rintro ⟨h1, h2⟩
      constructor
      · intro b hb
        obtain ⟨x, hx, he⟩ := List.any_eq_true.mp (h1 b hb)
        exact (beq_iff_eq.mp he) ▸ hx
      · intro k hk
        obtain ⟨x, hx, he⟩ := List.any_eq_true.mp (h2 k hk)
        exact (beq_iff_eq.mp he) ▸ hx
    · rintro ⟨h1, h2⟩
      constructor
      · intro b hb
        exact List.any_eq_true.mpr ⟨b, h1 b hb, beq_iff_eq.mpr rfl⟩
      · intro k hk
        exact List.any_eq_true.mpr ⟨k, h2 k hk, beq_iff_eq.mpr rfl⟩
  · intro kvs prefs hget h
    unfold validatePlanShape at h
    dsimp only at h
    rw [hget] at h
    dsimp only at h
    simp only [Bool.and_eq_true] at h
    exact h.2.1.1.2
  · intro kvs prefs bs bkvs mk hget hbs hmem hmk h
    unfold validatePlanShape at h
    dsimp only at h
    rw [hget, hbs] at h
    dsimp only at h
    simp only [Bool.and_eq_true] at h
    have hsize := h.2.2
    cases hsv : jget kvs ("size".toList) with
    | none => rw [hsv] at hsize; exact absurd hsize (by simp)
    | some sv =>
      rw [hsv] at hsize
      dsimp only at hsize
      cases htrip : asIntTriplet sv true with
      | none => rw [htrip] at hsize; exact absurd hsize (by simp)
      | some size =>
        rw [htrip] at hsize
        dsimp only at hsize
        simp only [Bool.and_eq_true] at hsize
        have hall := hsize.1.1.1.2
        have hbok := List.all_eq_true.mp hall (.jobj bkvs) hmem
        unfold blockOk at hbok
        dsimp only at hbok
        rw [Bool.and_eq_true] at hbok
        have hrest := hbok.2
        cases hpv : jget bkvs ("pos".toList) with
        | none => rw [hpv] at hrest; exact absurd hrest (by simp)
        | some pv =>
          rw [hpv] at hrest
          dsimp only at hrest
          cases hit : asIntTriplet pv false with
          | none => rw [hit] at hrest; exact absurd hrest (by simp)
          | some p =>
            rw [hit] at hrest
            dsimp only at hrest
            rw [hmk] at hrest
            dsimp only at hrest
            simp only [Bool.and_eq_true] at hrest
            have hallb := hrest.1.2.2
            intro biome hbio
            have hb := List.all_eq_true.mp hallb biome hbio
            cases hpb : jget prefs biome with
            | none => rw [hpb] at hb; exact absurd hb (by simp)
            | some v =>
              rw [hpb] at hb
              cases v with
              | jobj pal => exact ⟨pal, rfl, hb⟩
              | jnull => exact absurd hb (by simp)
              | jbool b => exact absurd hb (by simp)
              | jint n => exact absurd hb (by simp)
              | jnum => exact absurd hb (by simp)
              | jstr s => exact absurd hb (by simp)
              | jarr items => exact absurd hb (by simp)

theorem c9_witness :
    biomeKeySetOk (c9prefs.map Prod.fst) = true ∧
    (∃ pal, jget c9prefs "plains".toList = some (.jobj pal) ∧
      pal.any (fun kv => kv.1 == "k".toList) = true) :=
  ⟨c9_validator_biome_material.2.1 c9plan c9prefs rfl (by decide),
   c9_validator_biome_material.2.2 c9plan c9prefs [.jobj c9bkvs] c9bkvs "k".toList
     rfl rfl (List.mem_cons_self _ _) rfl (by decide)
     "plains".toList (by decide)⟩

/-! ## C1 — NBT tag codec round trip -/

theorem be_length : ∀ (k n : Nat), (be k n).length = k := by
  intro k
  induction k with
  | zero => intro n; rfl
  | succ k ih =>
    intro n
    simp only [be, List.length_append, ih, List.length_cons, List.length_nil]

theorem beNat_append_one (xs : Bytes) (b : Nat) :
    beNat (xs ++ [b]) = beNat xs * 256 + b := by
  unfold beNat
  rw [List.foldl_append]
  rfl

theorem beNat_be : ∀ (k n : Nat), n < 2 ^ (8 * k) → beNat (be k n) = n := by
  intro k
  induction k with
  | zero =>
    intro n h
    simp at h
    subst h
    rfl
  | succ k ih =>
    intro n h
    rw [be, beNat_append_one, ih (n / 256)]
    · omega
    · have : 2 ^ (8 * (k + 1)) = 2 ^ (8 * k) * 256 := by
        rw [show 8 * (k + 1) = 8 * k + 8 from by ring, pow_add]
        norm_num
      rw [this] at h
      omega

theorem readN_append (k : Nat) (p rest : Bytes) (h : p.length = k) :
    readN k (p ++ rest) = some (p, rest) := by
  unfold readN
  rw [if_pos (by simp [h])]
  rw [← h, List.take_left', List.drop_left']
  · rfl
  · rfl

theorem readNum_be (k n : Nat) (h : n < 2 ^ (8 * k)) (rest : Bytes) :
    readNum k (be k n ++ rest) = some (n, rest) := by
  unfold readNum
  rw [readN_append k (be k n) rest (be_length k n), Option.map_some', beNat_be k n h]

theorem u32ofInt_lt (v : Int) : u32ofInt v < 4294967296 := by
  unfold u32ofInt
  omega

theorem signedOfBe_u32 (v : Int) (h1 : -2147483648 ≤ v) (h2 : v < 2147483648) :
    signedOfBe 4 (u32ofInt v) = v := by
  unfold signedOfBe u32ofInt
  simp only [show 8 * 4 - 1 = 31 from rfl]
  by_cases hv : 0 ≤ v
  · rw [if_pos]
    · omega
    · omega
  · rw [if_neg]
    · omega
    · omega

theorem readSigned_i32 (v : Int) (h1 : -2147483648 ≤ v) (h2 : v < 2147483648)
    (rest : Bytes) : readSigned 4 (i32be v ++ rest) = some (v, rest) := by
  unfold readSigned i32be
  rw [readN_append 4 _ rest (be_length 4 _), Option.map_some',
    beNat_be 4 _ (by have := u32ofInt_lt v; norm_num; omega), signedOfBe_u32 v h1 h2]

theorem readNbtString_enc (s : Bytes) (h : s.length < 32768) (rest : Bytes) :
    readNbtString (be 2 s.length ++ (s ++ rest)) = some (s, rest) := by
  unfold readNbtString readSigned
  rw [readN_append 2 _ _ (be_length 2 _), Option.map_some',
    beNat_be 2 _ (by norm_num; omega)]
  have hsb : signedOfBe 2 s.length = (s.length : Int) := by
    unfold signedOfBe
    rw [if_pos (by norm_num; omega)]
  rw [hsb]
  dsimp only
  rw [if_neg (by omega)]
  rw [show ((s.length : Int)).toNat = s.length from rfl]
  exact readN_append _ s rest rfl

theorem decodeFuel_pos (t : PyVal) : 1 ≤ decodeFuel t := by
  cases t <;> simp only [decodeFuel] <;> omega

theorem decodeFuelL_pos (l : PyList) : 1 ≤ decodeFuelL l := by
  cases l <;> simp only [decodeFuelL] <;> omega

theorem decodeFuelKV_pos (d : PyKVs) : 1 ≤ decodeFuelKV d := by
  cases d <;> simp only [decodeFuelKV] <;> omega

theorem PyKVs.append_nil : ∀ a : PyKVs, a.append .nil = a := by
  have key : ∀ (n : Nat) (a : PyKVs), a.length ≤ n → a.append .nil = a := by
    intro n
    induction n with
    | zero =>
      intro a ha
      cases a with
      | nil => rfl
      | cons k v rest => simp only [PyKVs.length] at ha; omega
    | succ n ih =>
      intro a ha
      cases a with
      | nil => rfl
      | cons k v rest =>
        simp only [PyKVs.length] at ha
        simp only [PyKVs.append, ih rest (by omega)]
  exact fun a => key a.length a le_rfl

theorem PyKVs.append_assoc : ∀ (a b c : PyKVs),
    (a.append b).append c = a.append (b.append c) := by
  have key : ∀ (n : Nat) (a : PyKVs), a.length ≤ n → ∀ b c : PyKVs,
      (a.append b).append c = a.append (b.append c) := by
    intro n
    induction n with
    | zero =>
      intro a ha b c
      cases a with
      | nil => rfl
      | cons k v rest => simp only [PyKVs.length] at ha; omega
    | succ n ih =>
      intro a ha b c
      cases a with
      | nil => rfl
      | cons k v rest =>
        simp only [PyKVs.length] at ha
        simp only [PyKVs.append, ih rest (by omega)]
  exact fun a => key a.length a le_rfl

theorem PyKVs.keyMem_set (a : PyKVs) (k : Bytes) (v : PyVal) (k2 : Bytes) :
    (a.set k v).keyMem k2 = (a.keyMem k2 || k == k2) := by
  have key : ∀ (n : Nat) (a : PyKVs), a.length ≤ n →
      (a.set k v).keyMem k2 = (a.keyMem k2 || k == k2) := by
    intro n
    induction n with
    | zero =>
      intro a ha
      cases a with
      | nil => simp [PyKVs.set, PyKVs.keyMem]
      | cons k0 v0 rest => simp only [PyKVs.length] at ha; omega
    | succ n ih =>
      intro a ha
      cases a with
      | nil => simp [PyKVs.set, PyKVs.keyMem]
      | cons k0 v0 rest =>
        simp only [PyKVs.length] at ha
        simp only [PyKVs.set]
        by_cases h : k0 = k
        · rw [if_pos h]
          simp only [PyKVs.keyMem]
          subst h
          cases h2 : (k0 == k2) <;> simp
        · rw [if_neg h]
          simp only [PyKVs.keyMem, ih rest (by omega)]
          cases h2 : (k0 == k2) <;> simp
  exact key a.length a le_rfl

theorem PyKVs.set_fresh {a : PyKVs} {k : Bytes} (h : a.keyMem k = false) (v : PyVal) :
    a.set k v = a.append (.cons k v .nil) := by
  have key : ∀ (n : Nat) (a : PyKVs), a.length ≤ n → a.keyMem k = false →
      a.set k v = a.append (.cons k v .nil) := by
    intro n
    induction n with
    | zero =>
      intro a ha h2
      cases a with
      | nil => rfl
      | cons k0 v0 rest => simp only [PyKVs.length] at ha; omega
    | succ n ih =>
      intro a ha h2
      cases a with
      | nil => rfl
      | cons k0 v0 rest =>
        simp only [PyKVs.length] at ha
        simp only [PyKVs.keyMem, Bool.or_eq_false_iff] at h2
        simp only [PyKVs.set, PyKVs.append]
        rw [if_neg (fun hh => by simp [hh] at h2), ih rest (by omega) h2.2]
  exact key a.length a le_rfl h

theorem writePayload_tag_ne_zero {v : PyVal} {tag : Nat} {p : Bytes}
    (h : writePayload v = some (tag, p)) : tag ≠ 0 := by
  cases v <;> simp only [writePayload] at h
  · rw [Option.some.injEq, Prod.mk.injEq] at h
    omega
  · split at h
    · rw [Option.some.injEq, Prod.mk.injEq] at h
      omega
    · exact Option.noConfusion h
  · rw [Option.some.injEq, Prod.mk.injEq] at h
    omega
  · split at h
    · rw [Option.some.injEq, Prod.mk.injEq] at h
      omega
    · exact Option.noConfusion h
  · split at h
    · rw [Option.some.injEq, Prod.mk.injEq] at h
      omega
    · exact Option.noConfusion h
  · split at h
    · split at h
      · split at h
        · rw [Option.some.injEq, Prod.mk.injEq] at h
          omega
        · exact Option.noConfusion h
      · exact Option.noConfusion h
    · exact Option.noConfusion h
  · split at h
    · exact Option.noConfusion h
    · split at h
      · split at h
        · rw [Option.some.injEq, Prod.mk.injEq] at h
          omega
        · exact Option.noConfusion h
      · exact Option.noConfusion h
  · split at h
    · rw [Option.some.injEq, Prod.mk.injEq] at h
      omega
    · exact Option.noConfusion h

theorem readPayload_tag1 (f : Nat) (b : Bytes) :
    readPayload (f + 1) 1 b = (readSigned 1 b).map (fun p => (.pyInt p.1, p.2)) := by
  simp [readPayload]

theorem readPayload_tag3 (f : Nat) (b : Bytes) :
    readPayload (f + 1) 3 b = (readSigned 4 b).map (fun p => (.pyInt p.1, p.2)) := by
  simp [readPayload]

theorem readPayload_tag6 (f : Nat) (b : Bytes) :
    readPayload (f + 1) 6 b = (readNum 8 b).map (fun p => (.pyFloat p.1, p.2)) := by
  simp [readPayload]

theorem readPayload_tag7 (f : Nat) (b : Bytes) :
    readPayload (f + 1) 7 b =
      (match readSigned 4 b with
       | none => none
       | some (ln, r) =>
         if ln < 0 then none
         else (readN ln.toNat r).map (fun p => (.pyBytes p.1, p.2))) := by
  simp [readPayload]

theorem readPayload_tag8 (f : Nat) (b : Bytes) :
    readPayload (f + 1) 8 b = (readNbtString b).map (fun p => (.pyStr p.1, p.2)) := by
  simp [readPayload]

theorem readPayload_tag9 (f : Nat) (b : Bytes) :
    readPayload (f + 1) 9 b =
      (match b with
       | [] => none
       | inner :: r1 =>
         match readSigned 4 r1 with
         | none => none
         | some (ln, r2) =>
           if ln < 0 then none
           else
             match readListPayload f inner ln.toNat r2 with
             | none => none
             | some (items, r3) => some (.nbtList inner items, r3)) := by
  simp [readPayload]

theorem readPayload_tag10 (f : Nat) (b : Bytes) :
    readPayload (f + 1) 10 b = readCompound f .nil b := by
  simp [readPayload]

/-- The round-trip core, by induction on a bound of the per-value decoder fuel:
a successful encoding of a well-formed, claim-restricted value reads back as its
canonical decode image, leaving exactly the trailing bytes. -/
theorem roundtrip_master : ∀ N : Nat,
    (∀ t : PyVal, decodeFuel t ≤ N →
      ∀ tag enc, writePayload t = some (tag, enc) → pyWF t = true → pyGood t = true →
      ∀ f, decodeFuel t ≤ f → ∀ rest,
        readPayload f tag (enc ++ rest) = some (pyCanon t, rest)) ∧
    (∀ l : PyList, decodeFuelL l ≤ N →
      ∀ inner enc, writeListItems l inner = some enc → pyWFL l = true → pyGoodL l = true →
      ∀ f, decodeFuelL l ≤ f → ∀ rest,
        readListPayload f inner l.length (enc ++ rest) = some (pyCanonL l, rest)) ∧
    (∀ d : PyKVs, decodeFuelKV d ≤ N →
      ∀ enc, writeDictEntries d = some enc → pyWFKV d = true → kvsKeysNodup d = true →
      pyGoodKV d = true →
      ∀ f, decodeFuelKV d ≤ f → ∀ acc rest,
        (∀ k, d.keyMem k = true → acc.keyMem k = false) →
        readCompound f acc (enc ++ 0 :: rest) =
          some (.pyDict (acc.append (pyCanonKV d)), rest)) := by
  intro N
  induction N with
  | zero =>
    refine ⟨fun t ht => absurd ht ?_, fun l hl => absurd hl ?_, fun d hd => absurd hd ?_⟩
    · have := decodeFuel_pos t; omega
    · have := decodeFuelL_pos l; omega
    · have := decodeFuelKV_pos d; omega
  | succ N ih =>
    refine ⟨?_, ?_, ?_⟩
    · intro t hN tag enc hw hwf hgood f hf rest
      obtain ⟨f', rfl⟩ : ∃ f', f = f' + 1 := ⟨f - 1, by have := decodeFuel_pos t; omega⟩
      cases t with
      | pyBool b =>
        simp only [writePayload, Option.some.injEq, Prod.mk.injEq] at hw
        obtain ⟨rfl, rfl⟩ := hw
        cases b
        · rw [readPayload_tag1]
          unfold readSigned
          rw [show ([if false then (1 : Nat) else 0] : Bytes) = [0] from rfl,
            readN_append 1 [0] rest rfl, Option.map_some', Option.map_some']
          rfl
        · rw [readPayload_tag1]
          unfold readSigned
          rw [show ([if true then (1 : Nat) else 0] : Bytes) = [1] from rfl,
            readN_append 1 [1] rest rfl, Option.map_some', Option.map_some']
          rfl
      | pyInt v =>
        simp only [writePayload] at hw
        by_cases hb : (-2147483648 ≤ v && v < 2147483648) = true
        case neg => rw [if_neg hb] at hw; exact Option.noConfusion hw
        rw [if_pos hb] at hw
        rw [Option.some.injEq, Prod.mk.injEq] at hw
        obtain ⟨rfl, rfl⟩ := hw
        simp only [Bool.and_eq_true, decide_eq_true_eq] at hb
        rw [readPayload_tag3, readSigned_i32 v hb.1 hb.2 rest, Option.map_some']
        rfl
      | pyFloat bits =>
        simp only [writePayload, Option.some.injEq, Prod.mk.injEq] at hw
        obtain ⟨rfl, rfl⟩ := hw
        simp only [pyWF, decide_eq_true_eq] at hwf
        rw [readPayload_tag6, readNum_be 8 bits (by simpa using hwf) rest, Option.map_some']
        rfl
      | pyStr s =>
        simp only [pyGood, decide_eq_true_eq] at hgood
        have he : encString s = some (be 2 s.length ++ s) := by
          unfold encString
          rw [if_neg (by omega)]
        simp only [writePayload] at hw
        rw [he] at hw
        dsimp only at hw
        rw [Option.some.injEq, Prod.mk.injEq] at hw
        obtain ⟨rfl, rfl⟩ := hw
        rw [readPayload_tag8, List.append_assoc, readNbtString_enc s hgood rest,
          Option.map_some']
        rfl
      | pyBytes bs =>
        simp only [writePayload] at hw
        by_cases hb : bs.length < 2147483648
        case neg => rw [if_neg hb] at hw; exact Option.noConfusion hw
        rw [if_pos hb] at hw
        rw [Option.some.injEq, Prod.mk.injEq] at hw
        obtain ⟨rfl, rfl⟩ := hw
        rw [readPayload_tag7, List.append_assoc,
          readSigned_i32 (bs.length : Int) (by omega) (by exact_mod_cast hb)]
        dsimp only
        rw [if_neg (by omega)]
        rw [show ((bs.length : Int)).toNat = bs.length from rfl]
        rw [readN_append _ bs rest rfl, Option.map_some']
        rfl
      | pyDict kvs =>
        simp only [writePayload] at hw
        cases hwd : writeDictEntries kvs with
        | none => rw [hwd] at hw; exact Option.noConfusion hw
        | some p =>
          rw [hwd] at hw
          dsimp only at hw
          rw [Option.some.injEq, Prod.mk.injEq] at hw
          obtain ⟨rfl, rfl⟩ := hw
          simp only [pyWF, Bool.and_eq_true] at hwf
          simp only [pyGood] at hgood
          simp only [decodeFuel] at hN hf
          rw [readPayload_tag10,
            show (p ++ [0]) ++ rest = p ++ 0 :: rest from by simp,
            ih.2.2 kvs (by omega) p hwd hwf.2 hwf.1 hgood f' (by omega) PyKVs.nil rest
              (fun k _ => rfl)]
          rfl
      | nbtList inner items =>
        simp only [writePayload] at hw
        by_cases hi : inner < 256
        case neg => rw [if_neg hi] at hw; exact Option.noConfusion hw
        rw [if_pos hi] at hw
        cases hwl : writeListItems items inner with
        | none => rw [hwl] at hw; exact Option.noConfusion hw
        | some p =>
          rw [hwl] at hw
          dsimp only at hw
          by_cases hlen : items.length < 2147483648
          case neg => rw [if_neg hlen] at hw; exact Option.noConfusion hw
          rw [if_pos hlen] at hw
          rw [Option.some.injEq, Prod.mk.injEq] at hw
          obtain ⟨rfl, rfl⟩ := hw
          simp only [pyWF] at hwf
          simp only [pyGood] at hgood
          simp only [decodeFuel] at hN hf
          rw [readPayload_tag9]
          rw [show (inner :: (i32be (items.length : Int) ++ p)) ++ rest =
            inner :: ((i32be (items.length : Int) ++ p) ++ rest) from rfl]
          dsimp only
          rw [List.append_assoc,
            readSigned_i32 (items.length : Int) (by omega) (by exact_mod_cast hlen)]
          dsimp only
          rw [if_neg (by omega)]
          rw [show ((items.length : Int)).toNat = items.length from rfl]
          rw [ih.2.1 items (by omega) inner p hwl hwf hgood f' (by omega) rest]
          rfl
      | pyList items =>
        simp only [pyGood] at hgood
        exact absurd hgood (by simp)
    · intro l hN inner enc hw hwf hgood f hf rest
      obtain ⟨f', rfl⟩ : ∃ f', f = f' + 1 := ⟨f - 1, by have := decodeFuelL_pos l; omega⟩
      cases l with
      | nil =>
        simp only [writeListItems, Option.some.injEq] at hw
        subst hw
        rfl
      | cons v vs =>
        simp only [writeListItems] at hw
        cases hwp : writePayload v with
        | none => rw [hwp] at hw; exact Option.noConfusion hw
        | some tp =>
          obtain ⟨t, p⟩ := tp
          rw [hwp] at hw
          dsimp only at hw
          by_cases ht : t = inner
          case neg => rw [if_neg ht] at hw; exact Option.noConfusion hw
          rw [if_pos ht] at hw
          subst ht
          cases hwl : writeListItems vs t with
          | none => rw [hwl] at hw; simp at hw
          | some e2 =>
            rw [hwl] at hw
            simp only [Option.map_some', Option.some.injEq] at hw
            subst hw
            simp only [pyWFL, Bool.and_eq_true] at hwf
            simp only [pyGoodL, Bool.and_eq_true] at hgood
            simp only [decodeFuelL] at hN hf
            have hm1 := Nat.le_max_left (decodeFuel v) (decodeFuelL vs)
            have hm2 := Nat.le_max_right (decodeFuel v) (decodeFuelL vs)
            rw [show PyList.length (.cons v vs) = vs.length + 1 from rfl,
              show ((p ++ e2) ++ rest) = p ++ (e2 ++ rest) from by simp,
              show readListPayload (f' + 1) t (vs.length + 1) (p ++ (e2 ++ rest)) =
                (match readPayload f' t (p ++ (e2 ++ rest)) with
                 | none => none
                 | some (v2, r) =>
                   match readListPayload f' t vs.length r with
                   | none => none
                   | some (vs2, r2) => some (.cons v2 vs2, r2)) from rfl,
              ih.1 v (by omega) t p hwp hwf.1 hgood.1 f' (by omega) (e2 ++ rest)]
            dsimp only
            rw [ih.2.1 vs (by omega) t e2 hwl hwf.2 hgood.2 f' (by omega) rest]
            rfl
    · intro d hN enc hw hwfkv hnod hgood f hf acc rest hdisj
      obtain ⟨f', rfl⟩ : ∃ f', f = f' + 1 := ⟨f - 1, by have := decodeFuelKV_pos d; omega⟩
      cases d with
      | nil =>
        simp only [writeDictEntries, Option.some.injEq] at hw
        subst hw
        rw [show (([] : Bytes) ++ 0 :: rest) = 0 :: rest from rfl,
          show readCompound (f' + 1) acc (0 :: rest) = some (.pyDict acc, rest) from by
            simp [readCompound],
          show pyCanonKV .nil = .nil from rfl, PyKVs.append_nil]
      | cons k v rest2 =>
        simp only [writeDictEntries] at hw
        cases hwp : writePayload v with
        | none => rw [hwp] at hw; exact Option.noConfusion hw
        | some tp =>
          obtain ⟨t, p⟩ := tp
          rw [hwp] at hw
          dsimp only at hw
          simp only [pyGoodKV, Bool.and_eq_true, decide_eq_true_eq] at hgood
          have hek : encString k = some (be 2 k.length ++ k) := by
            unfold encString
            rw [if_neg (by omega)]
          rw [hek] at hw
          dsimp only at hw
          cases hwd : writeDictEntries rest2 with
          | none => rw [hwd] at hw; simp at hw
          | some r =>
            rw [hwd] at hw
            simp only [Option.map_some', Option.some.injEq] at hw
            subst hw
            simp only [pyWFKV, Bool.and_eq_true] at hwfkv
            simp only [kvsKeysNodup, Bool.and_eq_true, Bool.not_eq_true'] at hnod
            simp only [decodeFuelKV] at hN hf
            have hm1 := Nat.le_max_left (decodeFuel v) (decodeFuelKV rest2)
            have hm2 := Nat.le_max_right (decodeFuel v) (decodeFuelKV rest2)
            rw [show ((t :: ((be 2 k.length ++ k) ++ p ++ r)) ++ 0 :: rest) =
              t :: (be 2 k.length ++ (k ++ (p ++ (r ++ 0 :: rest)))) from by simp,
              show readCompound (f' + 1) acc
                  (t :: (be 2 k.length ++ (k ++ (p ++ (r ++ 0 :: rest))))) =
                (if t = 0 then
                  some (.pyDict acc, be 2 k.length ++ (k ++ (p ++ (r ++ 0 :: rest))))
                else
                  match readNbtString (be 2 k.length ++ (k ++ (p ++ (r ++ 0 :: rest)))) with
                  | none => none
                  | some (name, r2) =>
                    match readPayload f' t r2 with
                    | none => none
                    | some (v2, r3) => readCompound f' (acc.set name v2) r3) from rfl,
              if_neg (writePayload_tag_ne_zero hwp),
              readNbtString_enc k (by omega) _]
            dsimp only
            rw [ih.1 v (by omega) t p hwp hwfkv.1 hgood.1.2 f' (by omega) (r ++ 0 :: rest)]
            dsimp only
            rw [ih.2.2 rest2 (by omega) r hwd hwfkv.2 hnod.2 hgood.2 f' (by omega)
              (acc.set k (pyCanon v)) rest ?hdisj2]
            case hdisj2 =>
              intro k2 hk2
              rw [PyKVs.keyMem_set]
              have h1 : acc.keyMem k2 = false := hdisj k2 (by simp [PyKVs.keyMem, hk2])
              have h2 : (k == k2) = false := by
                rw [beq_eq_false_iff_ne]
                intro hh
                subst hh
                rw [hnod.1] at hk2
                exact Bool.noConfusion hk2
              rw [h1, h2]
              rfl
            rw [PyKVs.set_fresh (hdisj k (by simp [PyKVs.keyMem])) (pyCanon v),
              PyKVs.append_assoc]
            rfl

theorem pyCanonKV_length : ∀ d : PyKVs, (pyCanonKV d).length = d.length := by
  have key : ∀ (n : Nat) (d : PyKVs), d.length ≤ n → (pyCanonKV d).length = d.length := by
    intro n
    induction n with
    | zero =>
      intro d hd
      cases d with
      | nil => rfl
      | cons k v rest => simp only [PyKVs.length] at hd; omega
    | succ n ih =>
      intro d hd
      cases d with
      | nil => rfl
      | cons k v rest =>
        simp only [PyKVs.length] at hd
        simp only [pyCanonKV, PyKVs.length, ih rest (by omega)]
  exact fun d => key d.length d le_rfl

/-- Python `==` accepts the decoder's canonical image of every claim-restricted
well-formed value: booleans come back as the equal ints 1 and 0, non-NaN floats
equal themselves, and dicts compare as maps. -/
theorem pyEq_canon_master : ∀ N : Nat,
    (∀ t : PyVal, decodeFuel t ≤ N → pyWF t = true → pyGood t = true →
      pyEq (pyCanon t) t = true) ∧
    (∀ l : PyList, decodeFuelL l ≤ N → pyWFL l = true → pyGoodL l = true →
      pyEqL (pyCanonL l) l = true) ∧
    (∀ d : PyKVs, decodeFuelKV d ≤ N → pyWFKV d = true → kvsKeysNodup d = true →
      pyGoodKV d = true → ∀ dBig : PyKVs,
      (∀ k, d.keyMem k = true → dBig.lookup k = d.lookup k) →
      pyEqDictLe (pyCanonKV d) dBig = true) := by
  intro N
  induction N with
  | zero =>
    refine ⟨fun t ht => absurd ht ?_, fun l hl => absurd hl ?_, fun d hd => absurd hd ?_⟩
    · have := decodeFuel_pos t; omega
    · have := decodeFuelL_pos l; omega
    · have := decodeFuelKV_pos d; omega
  | succ N ih =>
    refine ⟨?_, ?_, ?_⟩
    · intro t hN hwf hgood
      cases t with
      | pyBool b => cases b <;> rfl
      | pyInt v => simp [pyCanon, pyEq]
      | pyFloat bits =>
        simp only [pyGood, Bool.not_eq_true'] at hgood
        simp only [pyCanon, pyEq]
        unfold floatEqBits
        rw [hgood]
        simp
      | pyStr s => simp [pyCanon, pyEq]
      | pyBytes bs => simp [pyCanon, pyEq]
      | nbtList inner items =>
        simp only [pyWF] at hwf
        simp only [pyGood] at hgood
        simp only [decodeFuel] at hN
        simp only [pyCanon, pyEq, Bool.and_eq_true]
        exact ⟨by simp, ih.2.1 items (by omega) hwf hgood⟩
      | pyList items =>
        simp only [pyGood] at hgood
        exact absurd hgood (by simp)
      | pyDict kvs =>
        simp only [pyWF, Bool.and_eq_true] at hwf
        simp only [pyGood] at hgood
        simp only [decodeFuel] at hN
        simp only [pyCanon, pyEq, Bool.and_eq_true]
        refine ⟨by rw [pyCanonKV_length]; simp, ?_⟩
        exact ih.2.2 kvs (by omega) hwf.2 hwf.1 hgood kvs (fun k _ => rfl)
    · intro l hN hwf hgood
      cases l with
      | nil => rfl
      | cons v vs =>
        simp only [pyWFL, Bool.and_eq_true] at hwf
        simp only [pyGoodL, Bool.and_eq_true] at hgood
        simp only [decodeFuelL] at hN
        have hm1 := Nat.le_max_left (decodeFuel v) (decodeFuelL vs)
        have hm2 := Nat.le_max_right (decodeFuel v) (decodeFuelL vs)
        simp only [pyCanonL, pyEqL, Bool.and_eq_true]
        exact ⟨ih.1 v (by omega) hwf.1 hgood.1, ih.2.1 vs (by omega) hwf.2 hgood.2⟩
    · intro d hN hwfkv hnod hgood dBig hlook
      cases d with
      | nil => rfl
      | cons k v rest2 =>
        simp only [pyWFKV, Bool.and_eq_true] at hwfkv
        simp only [kvsKeysNodup, Bool.and_eq_true, Bool.not_eq_true'] at hnod
        simp only [pyGoodKV, Bool.and_eq_true, decide_eq_true_eq] at hgood
        simp only [decodeFuelKV] at hN
        have hm1 := Nat.le_max_left (decodeFuel v) (decodeFuelKV rest2)
        have hm2 := Nat.le_max_right (decodeFuel v) (decodeFuelKV rest2)
        simp only [pyCanonKV, pyEqDictLe, Bool.and_eq_true]
        constructor
        · have hlk : dBig.lookup k = some v := by
            rw [hlook k (by simp [PyKVs.keyMem])]
            simp [PyKVs.lookup]
          rw [hlk]
          exact ih.1 v (by omega) hwfkv.1 hgood.1.2
        · refine ih.2.2 rest2 (by omega) hwfkv.2 hnod.2 hgood.2 dBig ?_
          intro k2 hk2
          have hne : k ≠ k2 := by
            intro hh
            subst hh
            rw [hnod.1] at hk2
            exact Bool.noConfusion hk2
          rw [hlook k2 (by simp [PyKVs.keyMem, hk2])]
          simp [PyKVs.lookup, hne]

theorem writePayload_str {s : Bytes} (h : s.length ≤ 65535) :
    writePayload (.pyStr s) = some (8, be 2 s.length ++ s) := by
  have he : encString s = some (be 2 s.length ++ s) := by
    unfold encString
    rw [if_neg (by omega)]
  simp only [writePayload]
  rw [he]

theorem readNbtString_len32768 (x : Bytes) : readNbtString ([128, 0] ++ x) = none := by
  unfold readNbtString readSigned
  rw [readN_append 2 [128, 0] x rfl, Option.map_some']
  rw [show signedOfBe 2 (beNat [128, 0]) = -32768 from by decide]
  dsimp only
  rw [if_pos (by norm_num)]

/-- C1 (counterexample): three encoder-constructible values break the literal
round trip.  A bare homogeneous Python list encodes but decodes to an `NbtList`
dataclass, which Python `==` never equates with a `list`; a 32768-byte string
encodes (unsigned 16-bit length) but decoding fails outright (the length is
read back signed as -32768 and rejected); and a NaN double decodes to the same
bit pattern but `nan == nan` is false in Python. -/
theorem c1_counterexample :
    (writePayload (.pyList (.cons (.pyInt 1) .nil)) =
        some (9, [3, 0, 0, 0, 1, 0, 0, 0, 1]) ∧
      readPayload 3 9 [3, 0, 0, 0, 1, 0, 0, 0, 1] =
        some (.nbtList 3 (.cons (.pyInt 1) .nil), []) ∧
      pyEq (.nbtList 3 (.cons (.pyInt 1) .nil)) (.pyList (.cons (.pyInt 1) .nil)) = false) ∧
    ((writePayload (.pyStr (List.replicate 32768 97))).isSome = true ∧
      readPayload 5 8 (be 2 32768 ++ List.replicate 32768 97) = none) ∧
    (writePayload (.pyFloat 9221120237041090560) =
        some (6, be 8 9221120237041090560) ∧
      pyEq (.pyFloat 9221120237041090560) (.pyFloat 9221120237041090560) = false) := by
  refine ⟨⟨by decide, by decide, by decide⟩, ⟨?_, ?_⟩, ⟨by decide, by decide⟩⟩
  · rw [writePayload_str (by rw [List.length_replicate]; omega)]
    rfl
  · rw [show (5 : Nat) = 4 + 1 from rfl, readPayload_tag8,
      show (be 2 32768 : Bytes) = [128, 0] from by decide,
      readNbtString_len32768 (List.replicate 32768 97)]
    rfl

/-- C1 (amended): the round trip holds for the encoder-constructible values the
sources actually feed the codec: every list node carries an `NbtList` tag, no
float is NaN, and every string and dict key is shorter than 32768 bytes.  For
such well-formed values the decode of the encode is the canonical image
(booleans come back as the ints 1/0), consumes exactly the encoding, and is
Python-`==`-equal to the original value. -/
theorem c1_tag_codec_roundtrip (t : PyVal) (tag : Nat) (enc : Bytes)
    (hw : writePayload t = some (tag, enc)) (hwf : pyWF t = true)
    (hgood : pyGood t = true) (f : Nat) (hf : decodeFuel t ≤ f) (rest : Bytes) :
    readPayload f tag (enc ++ rest) = some (pyCanon t, rest) ∧
    pyEq (pyCanon t) t = true :=
  ⟨(roundtrip_master (decodeFuel t)).1 t le_rfl tag enc hw hwf hgood f hf rest,
   (pyEq_canon_master (decodeFuel t)).1 t le_rfl hwf hgood⟩

theorem c1_roundtrip_witness :
    readPayload 3 10 ([3, 0, 1, 107, 0, 0, 0, 5, 0] ++ []) =
      some (pyCanon (.pyDict (.cons [107] (.pyInt 5) .nil)), []) ∧
    pyEq (pyCanon (.pyDict (.cons [107] (.pyInt 5) .nil)))
      (.pyDict (.cons [107] (.pyInt 5) .nil)) = true :=
  c1_tag_codec_roundtrip (.pyDict (.cons [107] (.pyInt 5) .nil)) 10
    [3, 0, 1, 107, 0, 0, 0, 5, 0] (by decide) (by decide) (by decide) 3 (by decide) []

end MC
